import Mathlib

/-!
Shallow embedding of the Libint2 C++11 engine API
(`src/include/libint2/engine.h`): the one-body engine (overlap, kinetic,
nuclear attraction) and the two-body engine (Coulomb and Gaussian-geminal
kernels).

Modelling conventions:
* C++ `double` values are idealised as real numbers; the literal constants
  `5.56832799683170784528481798212`, `1.12837916709551257389615890312` and
  `34.986836655249725693` in the source are the doubles nearest to
  `sqrt(pi^3)`, `2/sqrt(pi)` and `sqrt((2 pi)^5)`, and are embedded as those
  exact reals (the source names them `sqrt_PI_cubed`, `two_o_sqrt_PI`,
  `two_times_M_PI_to_25`).
* The build configuration is the standard one:
  `LIBINT2_SHELLQUARTET_SET == LIBINT2_SHELLQUARTET_SET_STANDARD`, all the
  standard `LIBINT2_DEFINED(eri,...)` prefactor fields enabled, and the
  inert-transfer-relation (`TwoPRepITR_...`) fields disabled (with them
  enabled the source would not even compile: those lines reference an
  undeclared variable `Data`).
* External collaborators are parameters: the core-function evaluator
  (`FmEval_Chebyshev3::eval` / `GaussianGmEval::eval`), the code-generated
  recurrence kernels (`libint2_build_...`) and the solid-harmonics
  coefficients (`solidharmonics::shg_coefs`) are abstract functions, with the
  solid-harmonics transforms spelled out as the axis-local linear transforms
  the interface documents.  A recurrence kernel consumes exactly the record
  fields the assembler populates for the active operator type; this is
  expressed by passing the kernel the per-operator *view* of each record.
* C++ `assert` failures and the `std::runtime_error` throw are modelled as
  two distinct error constructors of an `Except` result.
* The mutable per-engine buffers (`primdata_`, its `stack`, `targets` and
  `scratch_`) are explicit state threaded through `compute`.
-/

open Finset

/-- One contracted Gaussian shell (external `libint2::Shell`, consumed
read-only; modelled with exactly one contraction, the invariant this
subsystem asserts). -/
structure Shell where
  O : Fin 3 → ℝ
  l : ℕ
  pure : Bool
  alpha : List ℝ
  coeff : List ℝ

/-- Number of primitives: `Shell::nprim()`. -/
def Shell.nprim (s : Shell) : ℕ := s.alpha.length

/-- Number of Cartesian components of angular momentum `l`. -/
def cartSize (l : ℕ) : ℕ := (l + 1) * (l + 2) / 2

/-- `Shell::cartesian_size()`. -/
def Shell.cartesian_size (s : Shell) : ℕ := cartSize s.l

/-- `Shell::size()`: solid-harmonic count if pure, Cartesian count else. -/
def Shell.size (s : Shell) : ℕ := if s.pure then 2 * s.l + 1 else cartSize s.l

/-- `s.alpha[p]` (in-bounds access in the source loops). -/
def Shell.exponent (s : Shell) (p : ℕ) : ℝ := s.alpha.getD p 0

/-- `s.contr[0].coeff[p]`. -/
def Shell.coefficient (s : Shell) (p : ℕ) : ℝ := s.coeff.getD p 0

/-- `OneBodyEngine::type`. -/
inductive OBType
  | overlap
  | kinetic
  | nuclear
  | invalid
deriving DecidableEq

/-- Failure modes of a `compute` call: a fatal `assert` versus the
recoverable `std::runtime_error` thrown for a nuclear engine with no
configured charges. -/
inductive OBError
  | assertFail (msg : String)
  | runtimeError (msg : String)
deriving DecidableEq

/-- The fields of `Libint_t` that `OneBodyEngine::compute_primdata`
populates in the standard build (a primitive-pair record). -/
structure Record where
  PA : Fin 3 → ℝ
  AB : Fin 3 → ℝ
  PB : Fin 3 → ℝ
  BA : Fin 3 → ℝ
  oo2z : ℝ
  rho12_over_alpha1 : ℝ
  rho12_over_alpha2 : ℝ
  two_rho12 : ℝ
  PC : Fin 3 → ℝ
  ovlp_ss : ℝ
  kinetic_ss : ℝ
  elecpot : ℕ → ℝ

/-- An all-zero record (freshly initialised storage). -/
def Record0 : Record :=
  { PA := fun _ => 0, AB := fun _ => 0, PB := fun _ => 0, BA := fun _ => 0
    oo2z := 0, rho12_over_alpha1 := 0, rho12_over_alpha2 := 0, two_rho12 := 0
    PC := fun _ => 0, ovlp_ss := 0, kinetic_ss := 0, elecpot := fun _ => 0 }

/-- The portion of a record a recurrence kernel for operator type `t` and
total angular momentum `ltot` reads: exactly the fields
`compute_primdata` populates for `t` (conditional population contract,
spec section 4.1); everything else reads as zero. -/
def Record.view (r : Record) (t : OBType) (ltot : ℕ) : Record :=
  { PA := r.PA
    AB := r.AB
    PB := if t = OBType.kinetic then r.PB else fun _ => 0
    BA := if t = OBType.kinetic then r.BA else fun _ => 0
    oo2z := r.oo2z
    rho12_over_alpha1 := if t = OBType.kinetic then r.rho12_over_alpha1 else 0
    rho12_over_alpha2 := if t = OBType.kinetic then r.rho12_over_alpha2 else 0
    two_rho12 := if t = OBType.kinetic then r.two_rho12 else 0
    PC := if t = OBType.nuclear then r.PC else fun _ => 0
    ovlp_ss := r.ovlp_ss
    kinetic_ss := if t = OBType.kinetic then r.kinetic_ss else 0
    elecpot := if t = OBType.nuclear then (fun m => if m ≤ ltot then r.elecpot m else 0)
               else fun _ => 0 }

/-- The double literal `5.56832799683170784528481798212` of the source,
idealised: `sqrt(pi^3)`. -/
noncomputable def sqrt_PI_cubed : ℝ := Real.sqrt (Real.pi ^ 3)

/-- The double literal `1.12837916709551257389615890312` of the source,
idealised: `2/sqrt(pi)`. -/
noncomputable def two_o_sqrt_PI : ℝ := 2 / Real.sqrt Real.pi

/-- `OneBodyEngine`: configuration fixed at construction (`type_`,
`primdata_.size()`, `lmax_`, `deriv_order_`), the nuclear parameters `q_`,
and the mutable per-call storage (`primdata_`, the `(s|s)` accumulation
slot `primdata_[0].stack[0]`, the kernel target buffer, and `scratch_`). -/
structure OneBodyEngine where
  type_ : OBType
  primdata_size : ℕ
  lmax_ : ℤ
  deriv_order_ : ℕ
  q_ : List (ℝ × (Fin 3 → ℝ))
  primdata : ℕ → Record
  stack0 : ℝ
  targets : ℕ → ℝ
  scratch : ℕ → ℝ

/-- The usable constructor `OneBodyEngine(t, max_nprim, max_l, deriv_order)`:
`primdata_` is sized `max_nprim * max_nprim`; `q_` starts empty. -/
def mkOneBodyEngine (t : OBType) (max_nprim : ℕ) (max_l : ℤ)
    (deriv_order : ℕ) : OneBodyEngine :=
  { type_ := t
    primdata_size := max_nprim * max_nprim
    lmax_ := max_l
    deriv_order_ := deriv_order
    q_ := []
    primdata := fun _ => Record0
    stack0 := 0
    targets := fun _ => 0
    scratch := fun _ => 0 }

/-- `OneBodyEngine::set_q`: plain assignment `q_ = q`. -/
def OneBodyEngine.set_q (e : OneBodyEngine)
    (q : List (ℝ × (Fin 3 → ℝ))) : OneBodyEngine :=
  { e with q_ := q }

/-- `OneBodyEngine::compute_primdata(primdata, s1, s2, p1, p2, oset)`:
fills one record over the previous contents `old`; `fm` is the external
Boys-function evaluator (`fm U m` is the order-`m` value at argument `U`,
filled ascending by `fm_eval_->eval`). -/
noncomputable def OneBodyEngine.compute_primdata (e : OneBodyEngine) (old : Record)
    (s1 s2 : Shell) (p1 p2 : ℕ) (oset : ℕ) (fm : ℝ → ℕ → ℝ) : Record :=
  let A := s1.O
  let B := s2.O
  let alpha1 := s1.exponent p1
  let alpha2 := s2.exponent p2
  let c1 := s1.coefficient p1
  let c2 := s2.coefficient p2
  let gammap := alpha1 + alpha2
  let oogammap := 1 / gammap
  let rhop := alpha1 * alpha2 * oogammap
  let P : Fin 3 → ℝ := fun i => (alpha1 * A i + alpha2 * B i) * oogammap
  let ABv : Fin 3 → ℝ := fun i => A i - B i
  let AB2 := ABv 0 * ABv 0 + ABv 1 * ABv 1 + ABv 2 * ABv 2
  let Cq := (e.q_.getD oset (0, fun _ => 0)).2
  let K1 := Real.exp (-(rhop * AB2)) * oogammap
  let ovlp := sqrt_PI_cubed * Real.sqrt oogammap * K1 * c1 * c2
  let ltot := s1.l + s2.l
  let PCv : Fin 3 → ℝ := fun i => P i - Cq i
  let U := gammap * (PCv 0 * PCv 0 + PCv 1 * PCv 1 + PCv 2 * PCv 2)
  let pfac := -(e.q_.getD oset (0, fun _ => 0)).1 * Real.sqrt gammap * two_o_sqrt_PI * ovlp
  { old with
    PA := fun i => P i - A i
    AB := ABv
    PB := if e.type_ = OBType.kinetic then (fun i => P i - B i) else old.PB
    BA := if e.type_ = OBType.kinetic then (fun i => B i - A i) else old.BA
    oo2z := 0.5 * oogammap
    rho12_over_alpha1 := if e.type_ = OBType.kinetic then alpha2 * oogammap
                         else old.rho12_over_alpha1
    rho12_over_alpha2 := if e.type_ = OBType.kinetic then alpha1 * oogammap
                         else old.rho12_over_alpha2
    two_rho12 := if e.type_ = OBType.kinetic then 2 * rhop else old.two_rho12
    PC := if e.type_ = OBType.nuclear then PCv else old.PC
    ovlp_ss := ovlp
    kinetic_ss := if e.type_ = OBType.kinetic then rhop * (3 - 2 * rhop * AB2) * ovlp
                  else old.kinetic_ss
    elecpot := if e.type_ = OBType.nuclear then
                 (fun m => if m ≤ ltot then fm U m * pfac else old.elecpot m)
               else old.elecpot }

/-- The `(s|s)` accumulation term for one record, by operator type (the
`switch (type_)` at the shortcut in `compute`). -/
def seedValue (t : OBType) (r : Record) : ℝ :=
  match t with
  | OBType.overlap => r.ovlp_ss
  | OBType.kinetic => r.kinetic_ss
  | OBType.nuclear => r.elecpot 0
  | OBType.invalid => 0

/-- Type of the external recurrence-kernel table
`libint2_build_overlap/kinetic/elecpot`: given operator type, bra and ket
angular momenta and the populated record views, it produces the
contracted Cartesian `(bra|ket)` buffer, row-major. -/
def OBKernel : Type :=
  OBType → ℕ → ℕ → List Record → (ℕ → ℝ)

/-- Type of the external solid-harmonics coefficient table
`solidharmonics::shg_coefs`: `coef l i a` is the coefficient of Cartesian
component `a` in solid harmonic `i` at angular momentum `l`. -/
def SHCoef : Type := ℕ → ℕ → ℕ → ℝ

/-- `solidharmonics::tform(l1, l2, src, tgt)`: transform both axes. -/
noncomputable def tform (coef : SHCoef) (l1 l2 : ℕ) (src : ℕ → ℝ) : ℕ → ℝ :=
  fun p =>
    ∑ a ∈ Finset.range (cartSize l1), ∑ b ∈ Finset.range (cartSize l2),
      coef l1 (p / (2 * l2 + 1)) a * coef l2 (p % (2 * l2 + 1)) b *
        src (a * cartSize l2 + b)

/-- `solidharmonics::tform_rows(l1, n2, src, tgt)`: transform the row axis. -/
noncomputable def tform_rows (coef : SHCoef) (l1 n2 : ℕ) (src : ℕ → ℝ) : ℕ → ℝ :=
  fun p =>
    ∑ a ∈ Finset.range (cartSize l1), coef l1 (p / n2) a * src (a * n2 + p % n2)

/-- `solidharmonics::tform_cols(n1, l2, src, tgt)`: transform the column axis. -/
noncomputable def tform_cols (coef : SHCoef) (n1 l2 : ℕ) (src : ℕ → ℝ) : ℕ → ℝ :=
  fun p =>
    ∑ b ∈ Finset.range (cartSize l2),
      coef l2 (p % (2 * l2 + 1)) b * src ((p / (2 * l2 + 1)) * cartSize l2 + b)

/-- Mutable data threaded through the operator-set loop of
`OneBodyEngine::compute`. -/
structure OBLoop where
  pd : ℕ → Record
  stack0 : ℝ
  targets : ℕ → ℝ
  scratch : ℕ → ℝ

/-- One iteration of the operator-set (`oset`) loop of
`OneBodyEngine::compute`: populate one record per primitive pair, then
either accumulate the `(s|s)` seeds into `stack[0]` or invoke the
recurrence kernel and (when routing through scratch) accumulate the
possibly transposed block. -/
noncomputable def obOsetBody (e : OneBodyEngine) (K : OBKernel) (fm : ℝ → ℕ → ℝ)
    (bra ket : Shell) (swap use_scratch : Bool) (lmax ncart1 ncart2 : ℕ)
    (ls : OBLoop) (oset : ℕ) : OBLoop :=
  let nprimpairs := bra.nprim * ket.nprim
  let pd' : ℕ → Record := fun p =>
    if p < nprimpairs then
      e.compute_primdata (ls.pd p) bra ket (p / ket.nprim) (p % ket.nprim) oset fm
    else ls.pd p
  if lmax = 0 then
    { ls with
      pd := pd'
      stack0 := ls.stack0 +
        ∑ p ∈ Finset.range nprimpairs, seedValue e.type_ (pd' p) }
  else
    let buf := K e.type_ bra.l ket.l
      ((List.range nprimpairs).map (fun p => (pd' p).view e.type_ (bra.l + ket.l)))
    let scratch' : ℕ → ℝ :=
      if use_scratch then
        fun q =>
          if q < ncart1 * ncart2 then
            ls.scratch q +
              (if swap then buf ((q % ncart2) * ket.cartesian_size + q / ncart2)
               else buf q)
          else ls.scratch q
      else ls.scratch
    { pd := pd', stack0 := ls.stack0, targets := buf, scratch := scratch' }

/-- The final solid-harmonics stage of `OneBodyEngine::compute`
(the `if (s1.contr[0].pure || s2.contr[0].pure)` block). -/
noncomputable def obTformStage (coef : SHCoef) (s1 s2 : Shell) (c : ℕ → ℝ) : ℕ → ℝ :=
  if s1.pure || s2.pure then
    if s1.pure && s2.pure then tform coef s1.l s2.l c
    else if s1.pure then tform_rows coef s1.l s2.size c
    else tform_cols coef s1.size s2.l c
  else c

/-- Zero stage plus operator-set loop of `OneBodyEngine::compute`
(everything between the capability asserts and the buffer selection). -/
noncomputable def obCartStage (e : OneBodyEngine) (K : OBKernel) (fm : ℝ → ℕ → ℝ)
    (s1 s2 : Shell) : OBLoop :=
  let swap := decide (s1.l < s2.l)
  let bra := if swap then s2 else s1
  let ket := if swap then s1 else s2
  let ncart1 := s1.cartesian_size
  let ncart2 := s2.cartesian_size
  let use_scratch := swap || decide (e.type_ = OBType.nuclear)
  let lmax := max s1.l s2.l
  let st0 : OBLoop :=
    { pd := e.primdata
      stack0 := if lmax = 0 then 0 else e.stack0
      targets := e.targets
      scratch :=
        if lmax ≠ 0 ∧ use_scratch = true then
          fun q => if q < ncart1 * ncart2 then 0 else e.scratch q
        else e.scratch }
  let num_operset := if e.type_ = OBType.nuclear then e.q_.length else 1
  (List.range num_operset).foldl
    (obOsetBody e K fm bra ket swap use_scratch lmax ncart1 ncart2) st0

/-- Buffer selection and solid-harmonics stage of `OneBodyEngine::compute`
after the loop (`cartesian_ints = (use_scratch && lmax != 0) ? scratch :
targets[0]`, where for `lmax == 0` the target is the stack slot). -/
noncomputable def obComputeCore (e : OneBodyEngine) (K : OBKernel) (coef : SHCoef)
    (fm : ℝ → ℕ → ℝ) (s1 s2 : Shell) : OneBodyEngine × (ℕ → ℝ) :=
  let stN := obCartStage e K fm s1 s2
  let cartesian_ints : ℕ → ℝ :=
    if max s1.l s2.l = 0 then (fun i => if i = 0 then stN.stack0 else 0)
    else if decide (s1.l < s2.l) || decide (e.type_ = OBType.nuclear) then stN.scratch
    else stN.targets
  ({ e with
      primdata := stN.pd
      stack0 := stN.stack0
      targets := stN.targets
      scratch := stN.scratch },
   obTformStage coef s1 s2 cartesian_ints)

/-- `OneBodyEngine::compute(s1, s2)`: full per-call state machine
(canonicalise, assemble primitives, shortcut or kernel, un-swap,
transform), returning the updated engine and either the result buffer or
the error the source raises (asserts become `assertFail`, the
missing-nuclei throw becomes `runtimeError`). -/
noncomputable def OneBodyEngine.compute (e : OneBodyEngine) (K : OBKernel)
    (coef : SHCoef) (fm : ℝ → ℕ → ℝ) (s1 s2 : Shell) :
    OneBodyEngine × Except OBError (ℕ → ℝ) :=
  if e.deriv_order_ ≠ 0 then
    (e, Except.error (OBError.assertFail "deriv_order_ == 0"))
  else if e.type_ = OBType.nuclear ∧ e.q_ = [] then
    (e, Except.error (OBError.runtimeError
      "nuclear integrals requested but no nuclei found; forgot to call set_q?"))
  else
    let swap := decide (s1.l < s2.l)
    let bra := if swap then s2 else s1
    let ket := if swap then s1 else s2
    if ¬ bra.nprim * ket.nprim ≤ e.primdata_size then
      (e, Except.error (OBError.assertFail "nprimpairs <= primdata_.size()"))
    else if ¬ (max s1.l s2.l : ℤ) ≤ e.lmax_ then
      (e, Except.error (OBError.assertFail "lmax <= lmax_"))
    else if e.type_ = OBType.invalid then
      (e, Except.error (OBError.assertFail "unsupported operator type"))
    else
      ((obComputeCore e K coef fm s1 s2).1,
       Except.ok (obComputeCore e K coef fm s1 s2).2)

/-! ### Closed form of the overlap seed -/

/-- Unfolding of the overlap seed stored by `compute_primdata`
(the lines `K1 = exp(-rhop*AB2)*oogammap; ovlp_ss = sqrt_PI_cubed *
sqrt(oogammap) * K1 * c1 * c2`). -/
theorem compute_primdata_ovlp (e : OneBodyEngine) (old : Record) (s1 s2 : Shell)
    (p1 p2 oset : ℕ) (fm : ℝ → ℕ → ℝ) :
    (e.compute_primdata old s1 s2 p1 p2 oset fm).ovlp_ss =
      sqrt_PI_cubed * Real.sqrt (1 / (s1.exponent p1 + s2.exponent p2)) *
        (Real.exp (-(s1.exponent p1 * s2.exponent p2 *
            (1 / (s1.exponent p1 + s2.exponent p2)) *
            ((s1.O 0 - s2.O 0) * (s1.O 0 - s2.O 0) +
             (s1.O 1 - s2.O 1) * (s1.O 1 - s2.O 1) +
             (s1.O 2 - s2.O 2) * (s1.O 2 - s2.O 2)))) *
          (1 / (s1.exponent p1 + s2.exponent p2))) *
        s1.coefficient p1 * s2.coefficient p2 := rfl

/-- For a positive combined exponent the stored seed collapses to
`(pi/gamma)^{3/2} exp(-rho AB^2) c1 c2`. -/
theorem ovlp_ss_closed_form (e : OneBodyEngine) (old : Record) (s1 s2 : Shell)
    (p1 p2 oset : ℕ) (fm : ℝ → ℕ → ℝ)
    (h : 0 < s1.exponent p1 + s2.exponent p2) :
    (e.compute_primdata old s1 s2 p1 p2 oset fm).ovlp_ss =
      Real.sqrt ((Real.pi / (s1.exponent p1 + s2.exponent p2)) ^ 3) *
        Real.exp (-(s1.exponent p1 * s2.exponent p2 /
            (s1.exponent p1 + s2.exponent p2) *
            ((s1.O 0 - s2.O 0) * (s1.O 0 - s2.O 0) +
             (s1.O 1 - s2.O 1) * (s1.O 1 - s2.O 1) +
             (s1.O 2 - s2.O 2) * (s1.O 2 - s2.O 2)))) *
        s1.coefficient p1 * s2.coefficient p2 := by
  rw [compute_primdata_ovlp]
  set g := s1.exponent p1 + s2.exponent p2 with hg
  have hgne : g ≠ 0 := ne_of_gt h
  have hsg : Real.sqrt g ≠ 0 := by
    exact ne_of_gt (Real.sqrt_pos.mpr h)
  have h1 : Real.sqrt (1 / g) = 1 / Real.sqrt g := by
    rw [one_div, one_div, Real.sqrt_inv]
  have h2 : Real.sqrt ((Real.pi / g) ^ 3) =
      Real.sqrt (Real.pi ^ 3) / (g * Real.sqrt g) := by
    rw [div_pow, Real.sqrt_div (by positivity)]
    congr 1
    rw [pow_succ, Real.sqrt_mul (by positivity), Real.sqrt_sq h.le]
  have h3 : s1.exponent p1 * s2.exponent p2 * (1 / g) *
        ((s1.O 0 - s2.O 0) * (s1.O 0 - s2.O 0) +
         (s1.O 1 - s2.O 1) * (s1.O 1 - s2.O 1) +
         (s1.O 2 - s2.O 2) * (s1.O 2 - s2.O 2)) =
      s1.exponent p1 * s2.exponent p2 / g *
        ((s1.O 0 - s2.O 0) * (s1.O 0 - s2.O 0) +
         (s1.O 1 - s2.O 1) * (s1.O 1 - s2.O 1) +
         (s1.O 2 - s2.O 2) * (s1.O 2 - s2.O 2)) := by
    ring
  rw [h1, h2, h3, sqrt_PI_cubed]
  simp only [div_eq_mul_inv, mul_inv, one_mul, one_div]
  ring

/-! ### State-independence of the assembled records -/

/-- The record assembled over zeroed storage (canonical record of a
primitive pair). -/
noncomputable def obRecord (e : OneBodyEngine) (fm : ℝ → ℕ → ℝ) (s1 s2 : Shell)
    (p1 p2 oset : ℕ) : Record :=
  e.compute_primdata Record0 s1 s2 p1 p2 oset fm

/-- The kernel-visible view of a freshly assembled record does not depend
on the record's previous contents: `compute_primdata` writes every field
the operator's kernels read. -/
theorem compute_primdata_view_stable (e : OneBodyEngine) (old : Record)
    (s1 s2 : Shell) (p1 p2 oset : ℕ) (fm : ℝ → ℕ → ℝ) :
    (e.compute_primdata old s1 s2 p1 p2 oset fm).view e.type_ (s1.l + s2.l) =
      (obRecord e fm s1 s2 p1 p2 oset).view e.type_ (s1.l + s2.l) := by
  unfold obRecord OneBodyEngine.compute_primdata Record.view
  cases he : e.type_ <;> simp only [he, reduceCtorEq, if_true, if_false, reduceIte] <;>
    refine congrArg₂ _ rfl ?_ <;> funext m <;> by_cases hm : m ≤ s1.l + s2.l <;>
      simp [hm]

/-- The `(s|s)` seed of a freshly assembled record does not depend on the
record's previous contents. -/
theorem seedValue_stable (e : OneBodyEngine) (old : Record)
    (s1 s2 : Shell) (p1 p2 oset : ℕ) (fm : ℝ → ℕ → ℝ) :
    seedValue e.type_ (e.compute_primdata old s1 s2 p1 p2 oset fm) =
      seedValue e.type_ (obRecord e fm s1 s2 p1 p2 oset) := by
  unfold obRecord OneBodyEngine.compute_primdata seedValue
  cases he : e.type_ <;> simp [he]

/-! ### Denotational description of the operator-set loop -/

/-- Kernel input list for one operator set: the views of the records of
every primitive pair, in loop order (`p12 = pb * nprim_ket + pk`). -/
noncomputable def obViews (e : OneBodyEngine) (fm : ℝ → ℕ → ℝ) (bra ket : Shell)
    (oset : ℕ) : List Record :=
  (List.range (bra.nprim * ket.nprim)).map
    (fun p => (obRecord e fm bra ket (p / ket.nprim) (p % ket.nprim) oset).view
      e.type_ (bra.l + ket.l))

/-- Contracted Cartesian `(bra|ket)` buffer produced by the recurrence
kernel for one operator set. -/
noncomputable def obBuf (e : OneBodyEngine) (K : OBKernel) (fm : ℝ → ℕ → ℝ)
    (bra ket : Shell) (oset : ℕ) : ℕ → ℝ :=
  K e.type_ bra.l ket.l (obViews e fm bra ket oset)

/-- Sum of the `(s|s)` seeds over all primitive pairs of one operator set. -/
noncomputable def obSeedSum (e : OneBodyEngine) (fm : ℝ → ℕ → ℝ) (bra ket : Shell)
    (oset : ℕ) : ℝ :=
  ∑ p ∈ Finset.range (bra.nprim * ket.nprim),
    seedValue e.type_ (obRecord e fm bra ket (p / ket.nprim) (p % ket.nprim) oset)

/-- One operator set's contribution to the scratch buffer, in the caller's
`(s1, s2)` index order (transposed back when the shells were swapped). -/
noncomputable def obMapped (e : OneBodyEngine) (K : OBKernel) (fm : ℝ → ℕ → ℝ)
    (bra ket : Shell) (swap : Bool) (ncart2 : ℕ) (oset q : ℕ) : ℝ :=
  if swap then obBuf e K fm bra ket oset ((q % ncart2) * ket.cartesian_size + q / ncart2)
  else obBuf e K fm bra ket oset q

/-- Effect of one iteration of the operator-set loop on the accumulation
targets. -/
theorem obOsetBody_spec (e : OneBodyEngine) (K : OBKernel) (fm : ℝ → ℕ → ℝ)
    (bra ket : Shell) (swap use_scratch : Bool) (lmax ncart1 ncart2 : ℕ)
    (ls : OBLoop) (oset : ℕ) :
    (obOsetBody e K fm bra ket swap use_scratch lmax ncart1 ncart2 ls oset).stack0 =
      (if lmax = 0 then ls.stack0 + obSeedSum e fm bra ket oset else ls.stack0) ∧
    (obOsetBody e K fm bra ket swap use_scratch lmax ncart1 ncart2 ls oset).targets =
      (if lmax = 0 then ls.targets else obBuf e K fm bra ket oset) ∧
    ∀ q, (obOsetBody e K fm bra ket swap use_scratch lmax ncart1 ncart2 ls oset).scratch q =
      if lmax = 0 then ls.scratch q
      else if use_scratch = true ∧ q < ncart1 * ncart2 then
        ls.scratch q + obMapped e K fm bra ket swap ncart2 oset q
      else ls.scratch q := by
  have hviews : (List.range (bra.nprim * ket.nprim)).map
      (fun p => ((if p < bra.nprim * ket.nprim then
          e.compute_primdata (ls.pd p) bra ket (p / ket.nprim) (p % ket.nprim) oset fm
        else ls.pd p)).view e.type_ (bra.l + ket.l)) = obViews e fm bra ket oset := by
    unfold obViews
    refine List.map_congr_left ?_
    intro p hp
    rw [List.mem_range] at hp
    rw [if_pos hp, compute_primdata_view_stable]
  by_cases hl : lmax = 0
  · unfold obOsetBody
    rw [if_pos hl]
    refine ⟨?_, ?_, ?_⟩
    · simp only [if_pos hl]
      congr 1
      unfold obSeedSum
      refine Finset.sum_congr rfl ?_
      intro p hp
      rw [Finset.mem_range] at hp
      rw [if_pos hp, seedValue_stable]
    · simp [hl]
    · intro q
      simp [hl]
  · unfold obOsetBody
    rw [if_neg hl]
    refine ⟨by simp [hl], ?_, ?_⟩
    · simp only [if_neg hl]
      unfold obBuf
      rw [← hviews]
    · intro q
      simp only [if_neg hl]
      by_cases hus : use_scratch = true
      · by_cases hq : q < ncart1 * ncart2
        · simp only [hus, if_true, if_pos hq, hq, and_self, if_true]
          unfold obMapped obBuf
          rw [← hviews]
        · simp [hus, hq]
      · simp [hus]

/-- Folding the operator-set loop accumulates the seed sums
(`(s|s)` shortcut path). -/
theorem obFold_stack0 (e : OneBodyEngine) (K : OBKernel) (fm : ℝ → ℕ → ℝ)
    (bra ket : Shell) (swap use_scratch : Bool) (ncart1 ncart2 : ℕ) :
    ∀ (n : ℕ) (ls : OBLoop),
      ((List.range n).foldl
        (obOsetBody e K fm bra ket swap use_scratch 0 ncart1 ncart2) ls).stack0 =
      ls.stack0 + ∑ o ∈ Finset.range n, obSeedSum e fm bra ket o := by
  intro n
  induction n with
  | zero => intro ls; simp
  | succ n ih =>
    intro ls
    rw [List.range_succ, List.foldl_append, List.foldl_cons, List.foldl_nil,
      (obOsetBody_spec e K fm bra ket swap use_scratch 0 ncart1 ncart2 _ n).1,
      if_pos rfl, ih, Finset.sum_range_succ, add_assoc]

/-- Folding the operator-set loop accumulates the per-set kernel blocks
into scratch (general path). -/
theorem obFold_scratch (e : OneBodyEngine) (K : OBKernel) (fm : ℝ → ℕ → ℝ)
    (bra ket : Shell) (swap use_scratch : Bool) (lmax ncart1 ncart2 : ℕ)
    (hl : lmax ≠ 0) :
    ∀ (n : ℕ) (ls : OBLoop) (q : ℕ),
      ((List.range n).foldl
        (obOsetBody e K fm bra ket swap use_scratch lmax ncart1 ncart2) ls).scratch q =
      ls.scratch q +
        (if use_scratch = true ∧ q < ncart1 * ncart2 then
          ∑ o ∈ Finset.range n, obMapped e K fm bra ket swap ncart2 o q
        else 0) := by
  intro n
  induction n with
  | zero => intro ls q; simp
  | succ n ih =>
    intro ls q
    rw [List.range_succ, List.foldl_append, List.foldl_cons, List.foldl_nil,
      (obOsetBody_spec e K fm bra ket swap use_scratch lmax ncart1 ncart2 _ n).2.2 q,
      if_neg hl, ih]
    by_cases hq : use_scratch = true ∧ q < ncart1 * ncart2
    · simp [hq, Finset.sum_range_succ, add_assoc]
    · simp [hq]

/-- On the general path with a single operator set the target buffer after
the loop is the kernel output. -/
theorem obFold_targets_one (e : OneBodyEngine) (K : OBKernel) (fm : ℝ → ℕ → ℝ)
    (bra ket : Shell) (swap use_scratch : Bool) (lmax ncart1 ncart2 : ℕ)
    (hl : lmax ≠ 0) (ls : OBLoop) :
    ((List.range 1).foldl
      (obOsetBody e K fm bra ket swap use_scratch lmax ncart1 ncart2) ls).targets =
      obBuf e K fm bra ket 0 := by
  rw [show List.range 1 = [0] from rfl, List.foldl_cons, List.foldl_nil,
    (obOsetBody_spec e K fm bra ket swap use_scratch lmax ncart1 ncart2 _ 0).2.1,
    if_neg hl]

/-! ### Index arithmetic -/

/-- `cartSize` is always positive. -/
theorem cartSize_pos (l : ℕ) : 0 < cartSize l := by
  have h2 : 2 ≤ (l + 1) * (l + 2) := by nlinarith
  exact Nat.div_pos h2 (by norm_num)

/-- A non-pure shell has Cartesian logical size. -/
theorem size_of_not_pure (s : Shell) (h : s.pure = false) :
    s.size = s.cartesian_size := by
  simp [Shell.size, Shell.cartesian_size, h]

/-- Row-major flattening stays in range. -/
theorem flat2_lt {a n1 b n2 : ℕ} (h1 : a < n1) (h2 : b < n2) :
    a * n2 + b < n1 * n2 := by
  calc a * n2 + b < a * n2 + n2 := by omega
    _ = (a + 1) * n2 := by ring
    _ ≤ n1 * n2 := Nat.mul_le_mul_right n2 h1

/-- Row-major flattening is injective. -/
theorem flat2_inj {a1 b1 a2 b2 n : ℕ} (h1 : b1 < n) (h2 : b2 < n)
    (h : a1 * n + b1 = a2 * n + b2) : a1 = a2 ∧ b1 = b2 := by
  have hb : b1 = b2 := by
    have e1 : (a1 * n + b1) % n = b1 := by
      rw [Nat.mul_comm a1 n, Nat.mul_add_mod, Nat.mod_eq_of_lt h1]
    have e2 : (a2 * n + b2) % n = b2 := by
      rw [Nat.mul_comm a2 n, Nat.mul_add_mod, Nat.mod_eq_of_lt h2]
    rw [← e1, ← e2, h]
  refine ⟨?_, hb⟩
  rw [hb] at h
  have ha : a1 * n = a2 * n := Nat.add_right_cancel h
  exact Nat.eq_of_mul_eq_mul_right (by omega) ha

/-- Decoding a flat index below `n1 * n2`. -/
theorem div_lt_of_lt_mul' {p n1 n2 : ℕ} (h : p < n1 * n2) : p / n2 < n1 :=
  Nat.div_lt_of_lt_mul (Nat.mul_comm n1 n2 ▸ h)

/-! ### Denotational result of a successful one-body call -/

/-- Denotational value of the Cartesian stage of a successful
`OneBodyEngine::compute` call on the valid index region. -/
noncomputable def obCartSpec (e : OneBodyEngine) (K : OBKernel) (fm : ℝ → ℕ → ℝ)
    (s1 s2 : Shell) : ℕ → ℝ :=
  let swap := decide (s1.l < s2.l)
  let bra := if swap then s2 else s1
  let ket := if swap then s1 else s2
  let nop := if e.type_ = OBType.nuclear then e.q_.length else 1
  if max s1.l s2.l = 0 then
    fun q => if q = 0 then ∑ o ∈ Finset.range nop, obSeedSum e fm bra ket o else 0
  else if swap || decide (e.type_ = OBType.nuclear) then
    fun q => ∑ o ∈ Finset.range nop, obMapped e K fm bra ket swap s2.cartesian_size o q
  else obBuf e K fm bra ket 0

/-- Denotational value of a successful call after the solid-harmonics
stage. -/
noncomputable def obResultSpec (e : OneBodyEngine) (K : OBKernel) (coef : SHCoef)
    (fm : ℝ → ℕ → ℝ) (s1 s2 : Shell) : ℕ → ℝ :=
  obTformStage coef s1 s2 (obCartSpec e K fm s1 s2)

/-- The solid-harmonics stage only reads the Cartesian block, so buffers
agreeing there give equal results on the valid region. -/
theorem obTformStage_congr (coef : SHCoef) (s1 s2 : Shell) (c c' : ℕ → ℝ)
    (h : ∀ i < s1.cartesian_size * s2.cartesian_size, c i = c' i) :
    ∀ q < s1.size * s2.size,
      obTformStage coef s1 s2 c q = obTformStage coef s1 s2 c' q := by
  intro q hq
  unfold obTformStage
  cases h1 : s1.pure with
  | false =>
    cases h2 : s2.pure with
    | false =>
      simp only [h1, h2, Bool.or_self, Bool.false_eq_true, if_false]
      rw [size_of_not_pure s1 h1, size_of_not_pure s2 h2] at hq
      exact h q hq
    | true =>
      simp only [h1, h2, Bool.or_true, Bool.false_and, Bool.false_eq_true,
        if_true, if_false]
      unfold tform_cols
      refine Finset.sum_congr rfl fun b hb => ?_
      rw [Finset.mem_range] at hb
      have hdiv : q / (2 * s2.l + 1) < cartSize s1.l := by
        show q / (2 * s2.l + 1) < s1.cartesian_size
        rw [← size_of_not_pure s1 h1]
        refine div_lt_of_lt_mul' ?_
        have hsz : s2.size = 2 * s2.l + 1 := by simp [Shell.size, h2]
        rw [← hsz]
        exact hq
      rw [h (q / (2 * s2.l + 1) * cartSize s2.l + b) (flat2_lt hdiv hb)]
  | true =>
    cases h2 : s2.pure with
    | false =>
      simp only [h1, h2, Bool.true_or, Bool.and_false, Bool.false_eq_true,
        if_true, if_false]
      unfold tform_rows
      refine Finset.sum_congr rfl fun a ha => ?_
      rw [Finset.mem_range] at ha
      have h0 : s2.size = s2.cartesian_size := size_of_not_pure s2 h2
      have hpos : 0 < s2.size := by rw [h0]; exact cartSize_pos _
      have hlt : a * s2.size + q % s2.size < s1.cartesian_size * s2.size :=
        flat2_lt ha (Nat.mod_lt _ hpos)
      rw [h (a * s2.size + q % s2.size)
        (lt_of_lt_of_eq hlt (by rw [h0]))]
    | true =>
      simp only [h1, h2, Bool.or_self, Bool.and_self, if_true]
      unfold tform
      refine Finset.sum_congr rfl fun a ha => Finset.sum_congr rfl fun b hb => ?_
      rw [Finset.mem_range] at ha hb
      rw [h (a * cartSize s2.l + b) (flat2_lt ha hb)]

/-- The buffer selected after the operator-set loop agrees with the
denotational Cartesian value on the valid block. -/
theorem obCartStage_spec (e : OneBodyEngine) (K : OBKernel) (fm : ℝ → ℕ → ℝ)
    (s1 s2 : Shell) :
    ∀ i < s1.cartesian_size * s2.cartesian_size,
      (if max s1.l s2.l = 0 then
        (fun j => if j = 0 then (obCartStage e K fm s1 s2).stack0 else 0)
      else if decide (s1.l < s2.l) || decide (e.type_ = OBType.nuclear) then
        (obCartStage e K fm s1 s2).scratch
      else (obCartStage e K fm s1 s2).targets) i
      = obCartSpec e K fm s1 s2 i := by
  intro i hi
  by_cases h0 : max s1.l s2.l = 0
  · simp only [obCartStage, obCartSpec, h0, reduceIte, ne_eq, not_true_eq_false,
      false_and, if_false, if_true]
    rw [obFold_stack0]
    simp
  · by_cases hus : (decide (s1.l < s2.l) || decide (e.type_ = OBType.nuclear)) = true
    · have hcond : max s1.l s2.l ≠ 0 ∧
          (decide (s1.l < s2.l) || decide (e.type_ = OBType.nuclear)) = true :=
        ⟨h0, hus⟩
      simp only [obCartStage, obCartSpec, if_neg h0, hus, if_pos hcond, if_true]
      rw [obFold_scratch e K fm _ _ _ _ _ _ _ h0]
      simp only [hi, hus, and_true, if_pos, OBLoop.mk.injEq]
      rw [if_pos h0]
      simp [hi]
    · rw [Bool.not_eq_true] at hus
      have hpair := Bool.or_eq_false_iff.mp hus
      have hnuc : ¬ e.type_ = OBType.nuclear := of_decide_eq_false hpair.2
      simp only [obCartStage, obCartSpec, if_neg h0, hus, Bool.false_eq_true,
        if_false, if_neg hnuc]
      rw [obFold_targets_one e K fm _ _ _ _ _ _ _ h0]

/-- Master characterisation of a successful one-body call: when every
precondition holds, `compute` succeeds and the returned buffer carries the
denotational value on the whole result block. -/
theorem oneBodyCompute_ok (e : OneBodyEngine) (K : OBKernel) (coef : SHCoef)
    (fm : ℝ → ℕ → ℝ) (s1 s2 : Shell)
    (hd : e.deriv_order_ = 0)
    (ht : e.type_ ≠ OBType.invalid)
    (hq : e.type_ = OBType.nuclear → e.q_ ≠ [])
    (hcap : s1.nprim * s2.nprim ≤ e.primdata_size)
    (hl : (max s1.l s2.l : ℤ) ≤ e.lmax_) :
    (e.compute K coef fm s1 s2).2 =
      Except.ok (obComputeCore e K coef fm s1 s2).2 ∧
    ∀ q < s1.size * s2.size,
      (obComputeCore e K coef fm s1 s2).2 q = obResultSpec e K coef fm s1 s2 q := by
  constructor
  · have hcap' : (if decide (s1.l < s2.l) = true then s2 else s1).nprim *
        (if decide (s1.l < s2.l) = true then s1 else s2).nprim ≤ e.primdata_size := by
      by_cases hsw : decide (s1.l < s2.l) = true
      · simp only [hsw, if_true]
        rw [Nat.mul_comm]
        exact hcap
      · simp only [hsw, if_false]
        exact hcap
    simp only [OneBodyEngine.compute]
    rw [if_neg (by simp [hd]), if_neg (by rintro ⟨h1, h2⟩; exact hq h1 h2),
      if_neg (not_not_intro hcap'), if_neg (not_not_intro hl), if_neg ht]
  · intro q hq'
    simp only [obComputeCore, obResultSpec]
    exact obTformStage_congr coef s1 s2 _ _ (obCartStage_spec e K fm s1 s2) q hq'

/-- The result of a `compute` call, read as the error or the list of the
`n` buffer entries a caller may legally access. -/
noncomputable def resultView (r : Except OBError (ℕ → ℝ)) (n : ℕ) :
    Except OBError (List ℝ) :=
  r.map (fun f => (List.range n).map f)

/-- `compute` as a flat decision chain over the engine configuration (the
second component only). -/
theorem oneBodyCompute_snd (e : OneBodyEngine) (K : OBKernel) (coef : SHCoef)
    (fm : ℝ → ℕ → ℝ) (s1 s2 : Shell) :
    (e.compute K coef fm s1 s2).2 =
      if e.deriv_order_ ≠ 0 then
        Except.error (OBError.assertFail "deriv_order_ == 0")
      else if e.type_ = OBType.nuclear ∧ e.q_ = [] then
        Except.error (OBError.runtimeError
          "nuclear integrals requested but no nuclei found; forgot to call set_q?")
      else if ¬ (if decide (s1.l < s2.l) = true then s2 else s1).nprim *
          (if decide (s1.l < s2.l) = true then s1 else s2).nprim ≤ e.primdata_size then
        Except.error (OBError.assertFail "nprimpairs <= primdata_.size()")
      else if ¬ (max s1.l s2.l : ℤ) ≤ e.lmax_ then
        Except.error (OBError.assertFail "lmax <= lmax_")
      else if e.type_ = OBType.invalid then
        Except.error (OBError.assertFail "unsupported operator type")
      else Except.ok (obComputeCore e K coef fm s1 s2).2 := by
  simp only [OneBodyEngine.compute, apply_ite (Prod.snd (β := Except OBError (ℕ → ℝ)))]

/-- `compute` never changes the configuration fixed at construction
(operator type, record-array capacity, angular-momentum bound, derivative
order) nor the nuclear parameters. -/
theorem oneBodyCompute_preserves_config (e : OneBodyEngine) (K : OBKernel)
    (coef : SHCoef) (fm : ℝ → ℕ → ℝ) (s1 s2 : Shell) :
    (e.compute K coef fm s1 s2).1.type_ = e.type_ ∧
    (e.compute K coef fm s1 s2).1.primdata_size = e.primdata_size ∧
    (e.compute K coef fm s1 s2).1.lmax_ = e.lmax_ ∧
    (e.compute K coef fm s1 s2).1.deriv_order_ = e.deriv_order_ ∧
    (e.compute K coef fm s1 s2).1.q_ = e.q_ := by
  simp only [OneBodyEngine.compute]
  split_ifs <;> simp [obComputeCore]

/-- Splitting a sum over a flattened double range. -/
theorem sum_range_mul {M : Type} [AddCommMonoid M] (f : ℕ → M) (a b : ℕ) :
    ∑ p ∈ Finset.range (a * b), f p =
    ∑ i ∈ Finset.range a, ∑ j ∈ Finset.range b, f (i * b + j) := by
  induction a with
  | zero => simp
  | succ a ih =>
    rw [Nat.succ_mul, Finset.sum_range_add, ih, Finset.sum_range_succ]

/-- `(i*b + j) / b = i` when `j < b`. -/
theorem mul_add_div_eq {i b j : ℕ} (h : j < b) : (i * b + j) / b = i := by
  rw [Nat.mul_comm, Nat.mul_add_div (by omega)]
  simp [Nat.div_eq_of_lt h]

/-- `(i*b + j) % b = j` when `j < b`. -/
theorem mul_add_mod_eq {i b j : ℕ} (h : j < b) : (i * b + j) % b = j := by
  rw [Nat.mul_comm, Nat.mul_add_mod, Nat.mod_eq_of_lt h]

/-! ### Test fixtures -/

/-- A single-primitive s shell with unit exponent and unit contraction
coefficient at the origin. -/
def unitSShell : Shell := ⟨fun _ => 0, 0, false, [1], [1]⟩

/-- A constant-zero external Boys evaluator. -/
def fmZero : ℝ → ℕ → ℝ := fun _ _ => 0

/-- A constant-zero recurrence kernel. -/
def obKernelZero : OBKernel := fun _ _ _ _ _ => 0

/-- Zero solid-harmonics coefficients. -/
def shCoefZero : SHCoef := fun _ _ _ => 0

/-! ### Claim C1 -/

/-- The seed value claim C1 asserts, written from the spec's words:
`pi^(3/2) gamma^(-1/2) exp(-rho AB2) c1 c2`. -/
noncomputable def specOvlpSeed (alpha1 alpha2 AB2 c1 c2 : ℝ) : ℝ :=
  Real.sqrt (Real.pi ^ 3) * (1 / Real.sqrt (alpha1 + alpha2)) *
    Real.exp (-(alpha1 * alpha2 / (alpha1 + alpha2) * AB2)) * c1 * c2

/-- C1 fails on the code: for two unit s primitives at a common origin the
assembler stores half the claimed seed, because `K1` carries an extra
factor `1/gamma` (`K1 = exp(-rhop*AB2) * oogammap`), making the stored
value `pi^(3/2) gamma^(-3/2) exp(-rho AB2) c1 c2`. -/
theorem C1_counterexample :
    ((mkOneBodyEngine OBType.overlap 1 0 0).compute_primdata Record0
        unitSShell unitSShell 0 0 0 fmZero).ovlp_ss ≠ specOvlpSeed 1 1 0 1 1 := by
  have hexp : unitSShell.exponent 0 = 1 := rfl
  have hL : ((mkOneBodyEngine OBType.overlap 1 0 0).compute_primdata Record0
      unitSShell unitSShell 0 0 0 fmZero).ovlp_ss = Real.sqrt ((Real.pi / 2) ^ 3) := by
    rw [ovlp_ss_closed_form _ _ _ _ _ _ _ _ (by rw [hexp]; norm_num)]
    norm_num [unitSShell, Shell.exponent, Shell.coefficient, List.getD_cons_zero,
      Real.exp_zero]
  have hR : specOvlpSeed 1 1 0 1 1 = Real.sqrt (Real.pi ^ 3 / 2) := by
    unfold specOvlpSeed
    rw [mul_zero, neg_zero, Real.exp_zero,
      show Real.sqrt ((1:ℝ) + 1) = Real.sqrt 2 by norm_num,
      Real.sqrt_div (by positivity : (0:ℝ) ≤ Real.pi ^ 3) 2]
    ring
  rw [hL, hR]
  intro hEq
  have hp3 : 0 < Real.pi ^ 3 := pow_pos Real.pi_pos 3
  have hlt : (Real.pi / 2) ^ 3 < Real.pi ^ 3 / 2 := by
    rw [div_pow, show ((2:ℝ) ^ 3) = 8 by norm_num]
    exact div_lt_div_of_pos_left hp3 (by norm_num) (by norm_num)
  have hmono := Real.sqrt_lt_sqrt (by positivity) hlt
  rw [hEq] at hmono
  exact lt_irrefl _ hmono

/-- C1 (amended): for every primitive pair the assembler stores
`pi^(3/2) gamma^(-3/2) exp(-rho AB2) c1 c2` as the overlap seed, with
`gamma = alpha1 + alpha2`, `rho = alpha1 alpha2 / gamma` and `AB2` the
squared distance between the shell origins: the claimed `gamma^(-1/2)` is
corrected to `gamma^(-3/2)`, everything else is as stated. -/
theorem C1_amended (e : OneBodyEngine) (old : Record) (s1 s2 : Shell)
    (p1 p2 oset : ℕ) (fm : ℝ → ℕ → ℝ)
    (h : 0 < s1.exponent p1 + s2.exponent p2) :
    (e.compute_primdata old s1 s2 p1 p2 oset fm).ovlp_ss =
      Real.sqrt ((Real.pi / (s1.exponent p1 + s2.exponent p2)) ^ 3) *
        Real.exp (-(s1.exponent p1 * s2.exponent p2 /
            (s1.exponent p1 + s2.exponent p2) *
            ((s1.O 0 - s2.O 0) * (s1.O 0 - s2.O 0) +
             (s1.O 1 - s2.O 1) * (s1.O 1 - s2.O 1) +
             (s1.O 2 - s2.O 2) * (s1.O 2 - s2.O 2)))) *
        s1.coefficient p1 * s2.coefficient p2 :=
  ovlp_ss_closed_form e old s1 s2 p1 p2 oset fm h

/-- Witness for `C1_amended` at a concrete primitive pair
(unit exponents, coincident origins). -/
theorem C1_amended_witness :
    (0:ℝ) < unitSShell.exponent 0 + unitSShell.exponent 0 ∧
    ((mkOneBodyEngine OBType.overlap 1 0 0).compute_primdata Record0
        unitSShell unitSShell 0 0 0 fmZero).ovlp_ss =
      Real.sqrt ((Real.pi / (unitSShell.exponent 0 + unitSShell.exponent 0)) ^ 3) *
        Real.exp (-(unitSShell.exponent 0 * unitSShell.exponent 0 /
            (unitSShell.exponent 0 + unitSShell.exponent 0) *
            ((unitSShell.O 0 - unitSShell.O 0) * (unitSShell.O 0 - unitSShell.O 0) +
             (unitSShell.O 1 - unitSShell.O 1) * (unitSShell.O 1 - unitSShell.O 1) +
             (unitSShell.O 2 - unitSShell.O 2) * (unitSShell.O 2 - unitSShell.O 2)))) *
        unitSShell.coefficient 0 * unitSShell.coefficient 0 :=
  ⟨by norm_num [unitSShell, Shell.exponent],
   C1_amended (mkOneBodyEngine OBType.overlap 1 0 0) Record0 unitSShell unitSShell
     0 0 0 fmZero (by norm_num [unitSShell, Shell.exponent])⟩

/-! ### Claim C3 -/

/-- C3: a nuclear-attraction engine whose configured charge list is empty
makes `compute` raise the explicit `runtime_error` (recoverable,
distinguishable from every `assert` failure); the engine state -- record
array, stack, targets, scratch -- is returned untouched and no result
buffer is produced. -/
theorem C3_nuclear_requires_charges (cap : ℕ) (lm : ℤ)
    (pd : ℕ → Record) (st : ℝ) (tg sc : ℕ → ℝ)
    (K : OBKernel) (coef : SHCoef) (fm : ℝ → ℕ → ℝ) (s1 s2 : Shell) :
    OneBodyEngine.compute ⟨OBType.nuclear, cap, lm, 0, [], pd, st, tg, sc⟩
        K coef fm s1 s2 =
      (⟨OBType.nuclear, cap, lm, 0, [], pd, st, tg, sc⟩,
       Except.error (OBError.runtimeError
         "nuclear integrals requested but no nuclei found; forgot to call set_q?")) ∧
    ∀ msg, (OBError.runtimeError
        "nuclear integrals requested but no nuclei found; forgot to call set_q?") ≠
      OBError.assertFail msg := by
  constructor
  · simp [OneBodyEngine.compute]
  · intro msg h
    exact OBError.noConfusion h

/-! ### Claim C10 -/

/-- C10: `set_q` replaces the whole configured nuclear-charge list (two
calls leave exactly the second list), `q_` is the only engine field it
touches, and every subsequent computation on the twice-configured engine
coincides with one on an engine configured once with the latest list. -/
theorem C10_set_q_replaces (t : OBType) (cap : ℕ) (lm : ℤ) (dv : ℕ)
    (q0 q1 q2 : List (ℝ × (Fin 3 → ℝ))) (pd : ℕ → Record) (st : ℝ)
    (tg sc : ℕ → ℝ) :
    OneBodyEngine.set_q
        (OneBodyEngine.set_q ⟨t, cap, lm, dv, q0, pd, st, tg, sc⟩ q1) q2 =
      OneBodyEngine.set_q ⟨t, cap, lm, dv, q0, pd, st, tg, sc⟩ q2 ∧
    OneBodyEngine.set_q ⟨t, cap, lm, dv, q0, pd, st, tg, sc⟩ q2 =
      ⟨t, cap, lm, dv, q2, pd, st, tg, sc⟩ ∧
    ∀ (K : OBKernel) (coef : SHCoef) (fm : ℝ → ℕ → ℝ) (s1 s2 : Shell),
      OneBodyEngine.compute
        (OneBodyEngine.set_q
          (OneBodyEngine.set_q ⟨t, cap, lm, dv, q0, pd, st, tg, sc⟩ q1) q2)
        K coef fm s1 s2 =
      OneBodyEngine.compute
        (OneBodyEngine.set_q ⟨t, cap, lm, dv, q0, pd, st, tg, sc⟩ q2)
        K coef fm s1 s2 :=
  ⟨rfl, rfl, fun _ _ _ _ _ => rfl⟩

/-! ### Claim C4 -/

/-- C4: two s shells with one unit-exponent, unit-coefficient primitive
each, centred at the same point, on an overlap engine of capacity
`max_nprim = 1`, `max_l = 0`: `compute` succeeds, the result block is a
single scalar, and that scalar is `(pi/(alpha1+alpha2))^(3/2)` at
`alpha1 = alpha2 = 1`. -/
theorem C4_unit_overlap (O : Fin 3 → ℝ) (pd : ℕ → Record) (st : ℝ)
    (tg sc : ℕ → ℝ) (K : OBKernel) (coef : SHCoef) (fm : ℝ → ℕ → ℝ) :
    ∃ r : ℕ → ℝ,
      (OneBodyEngine.compute ⟨OBType.overlap, 1 * 1, 0, 0, [], pd, st, tg, sc⟩
          K coef fm ⟨O, 0, false, [1], [1]⟩ ⟨O, 0, false, [1], [1]⟩).2 =
        Except.ok r ∧
      Shell.size ⟨O, 0, false, [1], [1]⟩ = 1 ∧
      r 0 = Real.sqrt ((Real.pi / (1 + 1)) ^ 3) := by
  have hm := oneBodyCompute_ok ⟨OBType.overlap, 1 * 1, 0, 0, [], pd, st, tg, sc⟩
    K coef fm ⟨O, 0, false, [1], [1]⟩ ⟨O, 0, false, [1], [1]⟩
    rfl (fun h => OBType.noConfusion h) (fun h => OBType.noConfusion h)
    (by simp [Shell.nprim]) (by simp)
  refine ⟨_, hm.1, by simp [Shell.size, cartSize], ?_⟩
  have h0 := hm.2 0 (by simp [Shell.size, cartSize])
  rw [h0]
  simp only [obResultSpec, obTformStage, obCartSpec, obSeedSum, obRecord, seedValue]
  norm_num [Shell.nprim, Finset.sum_range_one]
  rw [if_neg (fun h => OBType.noConfusion h), Finset.sum_range_one,
    ovlp_ss_closed_form _ _ _ _ _ _ _ _ (by norm_num [Shell.exponent])]
  norm_num [Shell.exponent, Shell.coefficient, Real.exp_zero]

/-! ### Claim C5 -/

/-- Code-shaped closed form of the electrostatic-potential seeds: order
`m <= l1+l2` holds `fm(U) * pfac` with `U = gammap * |P-C|^2` and
`pfac = -charge * sqrt(gammap) * (2/sqrt pi) * ovlp_ss`. -/
theorem compute_primdata_elecpot (e : OneBodyEngine) (old : Record)
    (s1 s2 : Shell) (p1 p2 oset : ℕ) (fm : ℝ → ℕ → ℝ) (m : ℕ)
    (hm : m ≤ s1.l + s2.l) (he : e.type_ = OBType.nuclear) :
    (e.compute_primdata old s1 s2 p1 p2 oset fm).elecpot m =
      fm ((s1.exponent p1 + s2.exponent p2) *
          (((s1.exponent p1 * s1.O 0 + s2.exponent p2 * s2.O 0) *
              (1 / (s1.exponent p1 + s2.exponent p2)) -
             (e.q_.getD oset (0, fun _ => 0)).2 0) *
           ((s1.exponent p1 * s1.O 0 + s2.exponent p2 * s2.O 0) *
              (1 / (s1.exponent p1 + s2.exponent p2)) -
             (e.q_.getD oset (0, fun _ => 0)).2 0) +
           ((s1.exponent p1 * s1.O 1 + s2.exponent p2 * s2.O 1) *
              (1 / (s1.exponent p1 + s2.exponent p2)) -
             (e.q_.getD oset (0, fun _ => 0)).2 1) *
           ((s1.exponent p1 * s1.O 1 + s2.exponent p2 * s2.O 1) *
              (1 / (s1.exponent p1 + s2.exponent p2)) -
             (e.q_.getD oset (0, fun _ => 0)).2 1) +
           ((s1.exponent p1 * s1.O 2 + s2.exponent p2 * s2.O 2) *
              (1 / (s1.exponent p1 + s2.exponent p2)) -
             (e.q_.getD oset (0, fun _ => 0)).2 2) *
           ((s1.exponent p1 * s1.O 2 + s2.exponent p2 * s2.O 2) *
              (1 / (s1.exponent p1 + s2.exponent p2)) -
             (e.q_.getD oset (0, fun _ => 0)).2 2))) m *
        (-(e.q_.getD oset (0, fun _ => 0)).1 *
          Real.sqrt (s1.exponent p1 + s2.exponent p2) * two_o_sqrt_PI *
          (e.compute_primdata old s1 s2 p1 p2 oset fm).ovlp_ss) := by
  conv_rhs => rw [compute_primdata_ovlp]
  unfold OneBodyEngine.compute_primdata
  rw [he]
  simp only [reduceCtorEq, if_false, if_true, reduceIte]
  rw [if_pos hm]

/-- One nucleus' contribution to the Cartesian result block, in the
caller's index order. -/
noncomputable def nuclearContrib (e : OneBodyEngine) (K : OBKernel)
    (fm : ℝ → ℕ → ℝ) (s1 s2 : Shell) (o : ℕ) : ℕ → ℝ :=
  let swap := decide (s1.l < s2.l)
  let bra := if swap then s2 else s1
  let ket := if swap then s1 else s2
  if max s1.l s2.l = 0 then
    fun i => if i = 0 then obSeedSum e fm bra ket o else 0
  else fun i => obMapped e K fm bra ket swap s2.cartesian_size o i

/-- For a nuclear engine the denotational Cartesian value is the plain sum
of the per-nucleus contributions. -/
theorem obCartSpec_nuclear (e : OneBodyEngine) (K : OBKernel) (fm : ℝ → ℕ → ℝ)
    (s1 s2 : Shell) (he : e.type_ = OBType.nuclear) (i : ℕ) :
    obCartSpec e K fm s1 s2 i =
      ∑ o ∈ Finset.range e.q_.length, nuclearContrib e K fm s1 s2 o i := by
  unfold obCartSpec nuclearContrib
  rw [he]
  by_cases h0 : max s1.l s2.l = 0
  · simp only [h0, if_true, reduceIte]
    by_cases hi : i = 0
    · simp [hi]
    · simp [hi]
  · simp [h0]

/-- The solid-harmonics stage is the identity for Cartesian shells. -/
theorem obTformStage_not_pure (coef : SHCoef) (s1 s2 : Shell) (c : ℕ → ℝ)
    (h1 : s1.pure = false) (h2 : s2.pure = false) :
    obTformStage coef s1 s2 c = c := by
  unfold obTformStage
  simp [h1, h2]

/-- C5: on a nuclear-attraction call, (a) every primitive-pair record holds,
at every order `m <= l1+l2`, the core-function value at
`U = gamma |P - C|^2` scaled by `-charge sqrt(gamma) (2/sqrt pi) ovlp_ss`,
and (b) the returned Cartesian block is the sum, over every configured
nucleus, of the per-nucleus contributions (accumulated, not
overwritten). -/
theorem C5_nuclear_core_scaling_and_accumulation
    (cap : ℕ) (lm : ℤ) (q : List (ℝ × (Fin 3 → ℝ))) (pd : ℕ → Record)
    (st : ℝ) (tg sc : ℕ → ℝ) (K : OBKernel) (coef : SHCoef) (fm : ℝ → ℕ → ℝ)
    (s1 s2 : Shell)
    (hq : q ≠ []) (hcap : s1.nprim * s2.nprim ≤ cap)
    (hl : (max s1.l s2.l : ℤ) ≤ lm)
    (hp1 : s1.pure = false) (hp2 : s2.pure = false) :
    (∀ (old : Record) (p1 p2 oset m : ℕ), m ≤ s1.l + s2.l →
      (OneBodyEngine.compute_primdata ⟨OBType.nuclear, cap, lm, 0, q, pd, st, tg, sc⟩
          old s1 s2 p1 p2 oset fm).elecpot m =
        fm ((s1.exponent p1 + s2.exponent p2) *
            (((s1.exponent p1 * s1.O 0 + s2.exponent p2 * s2.O 0) /
                (s1.exponent p1 + s2.exponent p2) -
               (q.getD oset (0, fun _ => 0)).2 0) ^ 2 +
             ((s1.exponent p1 * s1.O 1 + s2.exponent p2 * s2.O 1) /
                (s1.exponent p1 + s2.exponent p2) -
               (q.getD oset (0, fun _ => 0)).2 1) ^ 2 +
             ((s1.exponent p1 * s1.O 2 + s2.exponent p2 * s2.O 2) /
                (s1.exponent p1 + s2.exponent p2) -
               (q.getD oset (0, fun _ => 0)).2 2) ^ 2)) m *
          (-(q.getD oset (0, fun _ => 0)).1 *
            Real.sqrt (s1.exponent p1 + s2.exponent p2) * (2 / Real.sqrt Real.pi) *
            (OneBodyEngine.compute_primdata ⟨OBType.nuclear, cap, lm, 0, q, pd, st, tg, sc⟩
              old s1 s2 p1 p2 oset fm).ovlp_ss)) ∧
    ∃ r, (OneBodyEngine.compute ⟨OBType.nuclear, cap, lm, 0, q, pd, st, tg, sc⟩
        K coef fm s1 s2).2 = Except.ok r ∧
      ∀ i < s1.cartesian_size * s2.cartesian_size,
        r i = ∑ o ∈ Finset.range q.length,
          nuclearContrib ⟨OBType.nuclear, cap, lm, 0, q, pd, st, tg, sc⟩
            K fm s1 s2 o i := by
  constructor
  · intro old p1 p2 oset m hm
    rw [compute_primdata_elecpot _ _ _ _ _ _ _ _ _ hm rfl]
    congr 1
    · congr 1
      ring
  · have hmaster := oneBodyCompute_ok ⟨OBType.nuclear, cap, lm, 0, q, pd, st, tg, sc⟩
      K coef fm s1 s2 rfl (fun h => OBType.noConfusion h) (fun _ => hq) hcap hl
    refine ⟨_, hmaster.1, ?_⟩
    intro i hi
    have hi' : i < s1.size * s2.size := by
      rw [size_of_not_pure s1 hp1, size_of_not_pure s2 hp2]
      exact hi
    rw [hmaster.2 i hi']
    unfold obResultSpec
    rw [obTformStage_not_pure coef s1 s2 _ hp1 hp2]
    exact obCartSpec_nuclear _ K fm s1 s2 rfl i

/-- Witness for `C5_nuclear_core_scaling_and_accumulation` at a concrete
single-nucleus, single-primitive configuration. -/
theorem C5_witness :
    (([((1:ℝ), fun _ => (0:ℝ))] : List (ℝ × (Fin 3 → ℝ))) ≠ [] ∧
      unitSShell.nprim * unitSShell.nprim ≤ 1 ∧
      ((max unitSShell.l unitSShell.l : ℕ) : ℤ) ≤ 0 ∧
      unitSShell.pure = false) ∧
    ∃ r, (OneBodyEngine.compute
        ⟨OBType.nuclear, 1, 0, 0, [((1:ℝ), fun _ => (0:ℝ))],
          fun _ => Record0, 0, fun _ => 0, fun _ => 0⟩
        obKernelZero shCoefZero fmZero unitSShell unitSShell).2 = Except.ok r ∧
      ∀ i < unitSShell.cartesian_size * unitSShell.cartesian_size,
        r i = ∑ o ∈ Finset.range
            ([((1:ℝ), fun _ => (0:ℝ))] : List (ℝ × (Fin 3 → ℝ))).length,
          nuclearContrib
            ⟨OBType.nuclear, 1, 0, 0, [((1:ℝ), fun _ => (0:ℝ))],
              fun _ => Record0, 0, fun _ => 0, fun _ => 0⟩
            obKernelZero fmZero unitSShell unitSShell o i :=
  ⟨⟨by simp, by simp [unitSShell, Shell.nprim], by simp [unitSShell], rfl⟩,
   (C5_nuclear_core_scaling_and_accumulation 1 0 _ _ 0 _ _ obKernelZero shCoefZero
     fmZero unitSShell unitSShell (by simp)
     (by simp [unitSShell, Shell.nprim]) (by simp [unitSShell]) rfl rfl).2⟩

/-! ### Claim C8: symmetry -/

/-- Code-shaped closed form of the kinetic seed:
`rhop (3 - 2 rhop AB2) ovlp_ss`. -/
theorem compute_primdata_kinetic (e : OneBodyEngine) (old : Record)
    (s1 s2 : Shell) (p1 p2 oset : ℕ) (fm : ℝ → ℕ → ℝ)
    (he : e.type_ = OBType.kinetic) :
    (e.compute_primdata old s1 s2 p1 p2 oset fm).kinetic_ss =
      s1.exponent p1 * s2.exponent p2 * (1 / (s1.exponent p1 + s2.exponent p2)) *
        (3 - 2 * (s1.exponent p1 * s2.exponent p2 *
            (1 / (s1.exponent p1 + s2.exponent p2))) *
          ((s1.O 0 - s2.O 0) * (s1.O 0 - s2.O 0) +
           (s1.O 1 - s2.O 1) * (s1.O 1 - s2.O 1) +
           (s1.O 2 - s2.O 2) * (s1.O 2 - s2.O 2))) *
        (e.compute_primdata old s1 s2 p1 p2 oset fm).ovlp_ss := by
  conv_rhs => rw [compute_primdata_ovlp]
  unfold OneBodyEngine.compute_primdata
  rw [he]
  simp only [reduceCtorEq, if_false, if_true, reduceIte]

/-- The `(s|s)` seed is symmetric under exchanging the two shells together
with their primitive indices. -/
theorem seedValue_obRecord_symm (e : OneBodyEngine) (fm : ℝ → ℕ → ℝ)
    (sa sb : Shell) (pa pb o : ℕ) :
    seedValue e.type_ (obRecord e fm sa sb pa pb o) =
      seedValue e.type_ (obRecord e fm sb sa pb pa o) := by
  cases he : e.type_
  case overlap =>
    simp only [seedValue]
    unfold obRecord
    rw [compute_primdata_ovlp, compute_primdata_ovlp,
      add_comm (sb.exponent pb) (sa.exponent pa)]
    ring_nf
  case kinetic =>
    simp only [seedValue]
    unfold obRecord
    rw [compute_primdata_kinetic _ _ _ _ _ _ _ _ he,
      compute_primdata_kinetic _ _ _ _ _ _ _ _ he,
      compute_primdata_ovlp, compute_primdata_ovlp,
      add_comm (sb.exponent pb) (sa.exponent pa)]
    ring_nf
  case nuclear =>
    simp only [seedValue]
    unfold obRecord
    rw [compute_primdata_elecpot _ _ _ _ _ _ _ _ 0 (Nat.zero_le _) he,
      compute_primdata_elecpot _ _ _ _ _ _ _ _ 0 (Nat.zero_le _) he,
      compute_primdata_ovlp, compute_primdata_ovlp,
      add_comm (sb.exponent pb) (sa.exponent pa)]
    ring_nf
  case invalid =>
    simp only [seedValue]

/-- The seed sum over all primitive pairs is symmetric in the two shells. -/
theorem obSeedSum_symm (e : OneBodyEngine) (fm : ℝ → ℕ → ℝ) (sa sb : Shell)
    (o : ℕ) :
    obSeedSum e fm sa sb o = obSeedSum e fm sb sa o := by
  unfold obSeedSum
  rw [sum_range_mul _ sa.nprim sb.nprim, sum_range_mul _ sb.nprim sa.nprim,
    Finset.sum_comm]
  refine Finset.sum_congr rfl fun j hj => Finset.sum_congr rfl fun i hi => ?_
  rw [Finset.mem_range] at hi hj
  rw [mul_add_div_eq hj, mul_add_mod_eq hj, mul_add_div_eq hi, mul_add_mod_eq hi]
  exact seedValue_obRecord_symm e fm sa sb i j o

/-- Cart-block symmetry when the first shell has strictly lower angular
momentum: the left call canonicalises by swapping and transposes back, the
right call runs directly; both produce the same records. -/
theorem obCartSpec_symm_lt (e : OneBodyEngine) (K : OBKernel) (fm : ℝ → ℕ → ℝ)
    (s1 s2 : Shell) (hlt : s1.l < s2.l) :
    ∀ i j, i < s1.cartesian_size → j < s2.cartesian_size →
      obCartSpec e K fm s1 s2 (i * s2.cartesian_size + j) =
        obCartSpec e K fm s2 s1 (j * s1.cartesian_size + i) := by
  intro i j hi hj
  unfold obCartSpec
  have hmax12 : ¬ max s1.l s2.l = 0 := by omega
  have hmax21 : ¬ max s2.l s1.l = 0 := by omega
  have hsw12 : decide (s1.l < s2.l) = true := decide_eq_true hlt
  have hsw21 : decide (s2.l < s1.l) = false := decide_eq_false (by omega)
  simp only [hsw12, hsw21, if_neg hmax12, if_neg hmax21, Bool.true_or,
    Bool.false_or, if_true, if_false]
  by_cases hnuc : e.type_ = OBType.nuclear
  · simp only [hnuc, decide_eq_true_eq, if_true, reduceIte]
    refine Finset.sum_congr rfl fun o ho => ?_
    unfold obMapped
    simp only [if_true, reduceIte, Bool.false_eq_true, if_false]
    rw [mul_add_mod_eq hj, mul_add_div_eq hj]
  · have hd : decide (e.type_ = OBType.nuclear) = false := decide_eq_false hnuc
    simp only [hd, if_neg hnuc, Bool.false_eq_true, if_false, Finset.sum_range_one]
    unfold obMapped
    simp only [if_true, reduceIte, Bool.false_eq_true, if_false]
    rw [mul_add_mod_eq hj, mul_add_div_eq hj]

/-- Cart-block symmetry for equal angular momenta: no swap happens in
either direction, so the symmetry reduces to the external kernel's
mathematical transpose symmetry (on the shortcut path, to the seed-sum
symmetry). -/
theorem obCartSpec_symm_eq (e : OneBodyEngine) (K : OBKernel) (fm : ℝ → ℕ → ℝ)
    (s1 s2 : Shell) (heq : s1.l = s2.l)
    (Hsym : ∀ (o i j : ℕ), i < cartSize s1.l → j < cartSize s2.l →
      obBuf e K fm s1 s2 o (i * cartSize s2.l + j) =
        obBuf e K fm s2 s1 o (j * cartSize s1.l + i)) :
    ∀ i j, i < s1.cartesian_size → j < s2.cartesian_size →
      obCartSpec e K fm s1 s2 (i * s2.cartesian_size + j) =
        obCartSpec e K fm s2 s1 (j * s1.cartesian_size + i) := by
  intro i j hi hj
  unfold obCartSpec
  have hsw12 : decide (s1.l < s2.l) = false := decide_eq_false (by omega)
  have hsw21 : decide (s2.l < s1.l) = false := decide_eq_false (by omega)
  simp only [hsw12, hsw21, Bool.false_eq_true, if_false, Bool.false_or]
  by_cases h0 : max s1.l s2.l = 0
  · have h0' : max s2.l s1.l = 0 := by omega
    have hc1 : s1.cartesian_size = 1 := by
      have hl1 : s1.l = 0 := by omega
      simp [Shell.cartesian_size, hl1, cartSize]
    have hc2 : s2.cartesian_size = 1 := by
      have hl2 : s2.l = 0 := by omega
      simp [Shell.cartesian_size, hl2, cartSize]
    have hi0 : i = 0 := by omega
    have hj0 : j = 0 := by omega
    subst hi0 hj0
    simp only [h0, h0', if_true, reduceIte, Nat.zero_mul, Nat.add_zero,
      Nat.mul_zero, Nat.zero_add]
    refine Finset.sum_congr rfl fun o ho => obSeedSum_symm e fm s1 s2 o
  · have h0' : ¬ max s2.l s1.l = 0 := by omega
    simp only [if_neg h0, if_neg h0']
    by_cases hnuc : decide (e.type_ = OBType.nuclear) = true
    · simp only [hnuc, Bool.or_true, if_true, reduceIte]
      refine Finset.sum_congr rfl fun o ho => ?_
      unfold obMapped
      simp only [Bool.false_eq_true, if_false]
      exact Hsym o i j hi hj
    · rw [Bool.not_eq_true] at hnuc
      simp only [hnuc, Bool.or_false, Bool.false_eq_true, if_false]
      exact Hsym 0 i j hi hj

/-- Cart-block symmetry of the one-body engine for arbitrary angular
momenta, given the external kernel's transpose-symmetry contract on
equal-momentum pairs. -/
theorem obCartSpec_symm (e : OneBodyEngine) (K : OBKernel) (fm : ℝ → ℕ → ℝ)
    (s1 s2 : Shell)
    (Hsym : ∀ (sa sb : Shell) (o : ℕ), sa.l = sb.l →
      ∀ i j, i < cartSize sa.l → j < cartSize sb.l →
        obBuf e K fm sa sb o (i * cartSize sb.l + j) =
          obBuf e K fm sb sa o (j * cartSize sa.l + i)) :
    ∀ i j, i < s1.cartesian_size → j < s2.cartesian_size →
      obCartSpec e K fm s1 s2 (i * s2.cartesian_size + j) =
        obCartSpec e K fm s2 s1 (j * s1.cartesian_size + i) := by
  intro i j hi hj
  rcases lt_trichotomy s1.l s2.l with hlt | heq | hgt
  · exact obCartSpec_symm_lt e K fm s1 s2 hlt i j hi hj
  · exact obCartSpec_symm_eq e K fm s1 s2 heq
      (fun o i' j' hi' hj' => Hsym s1 s2 o heq i' j' hi' hj') i j hi hj
  · exact (obCartSpec_symm_lt e K fm s2 s1 hgt j i hj hi).symm

/-- Result-block symmetry including the solid-harmonics stage. -/
theorem obResultSpec_symm (e : OneBodyEngine) (K : OBKernel) (coef : SHCoef)
    (fm : ℝ → ℕ → ℝ) (s1 s2 : Shell)
    (Hsym : ∀ (sa sb : Shell) (o : ℕ), sa.l = sb.l →
      ∀ i j, i < cartSize sa.l → j < cartSize sb.l →
        obBuf e K fm sa sb o (i * cartSize sb.l + j) =
          obBuf e K fm sb sa o (j * cartSize sa.l + i)) :
    ∀ i j, i < s1.size → j < s2.size →
      obResultSpec e K coef fm s1 s2 (i * s2.size + j) =
        obResultSpec e K coef fm s2 s1 (j * s1.size + i) := by
  intro i j hi hj
  have hsymm : ∀ i' j', i' < cartSize s1.l → j' < cartSize s2.l →
      obCartSpec e K fm s1 s2 (i' * cartSize s2.l + j') =
        obCartSpec e K fm s2 s1 (j' * cartSize s1.l + i') :=
    obCartSpec_symm e K fm s1 s2 Hsym
  unfold obResultSpec obTformStage
  cases h1 : s1.pure with
  | false =>
    cases h2 : s2.pure with
    | false =>
      simp only [h1, h2, Bool.or_self, Bool.false_eq_true, if_false]
      have hsz1 : s1.size = cartSize s1.l := size_of_not_pure s1 h1
      have hsz2 : s2.size = cartSize s2.l := size_of_not_pure s2 h2
      rw [hsz1] at hi
      rw [hsz2] at hj
      rw [hsz1, hsz2]
      exact hsymm i j hi hj
    | true =>
      simp only [h1, h2, Bool.false_or, Bool.or_false, Bool.false_and,
        Bool.and_false, Bool.false_eq_true, if_false, if_true]
      unfold tform_cols tform_rows
      have hsz2 : s2.size = 2 * s2.l + 1 := by simp [Shell.size, h2]
      have hj' : j < 2 * s2.l + 1 := hsz2 ▸ hj
      rw [hsz2, mul_add_div_eq hj', mul_add_mod_eq hj',
        mul_add_div_eq hi, mul_add_mod_eq hi]
      refine Finset.sum_congr rfl fun b hb => ?_
      rw [Finset.mem_range] at hb
      have hszc1 : s1.size = cartSize s1.l := by
        rw [size_of_not_pure s1 h1, Shell.cartesian_size]
      have hi' : i < cartSize s1.l := by omega
      rw [hszc1, ← hsymm i b hi' hb]
  | true =>
    cases h2 : s2.pure with
    | false =>
      simp only [h1, h2, Bool.true_or, Bool.or_true, Bool.true_and,
        Bool.and_false, Bool.false_and, Bool.false_eq_true, if_false, if_true]
      unfold tform_rows tform_cols
      have hsz1 : s1.size = 2 * s1.l + 1 := by simp [Shell.size, h1]
      have hi' : i < 2 * s1.l + 1 := hsz1 ▸ hi
      rw [mul_add_div_eq hj, mul_add_mod_eq hj]
      rw [hsz1, mul_add_div_eq hi', mul_add_mod_eq hi']
      refine Finset.sum_congr rfl fun b hb => ?_
      rw [Finset.mem_range] at hb
      have hszc2 : s2.size = cartSize s2.l := by
        rw [size_of_not_pure s2 h2, Shell.cartesian_size]
      have hj' : j < cartSize s2.l := by omega
      rw [hszc2, hsymm b j hb hj']
    | true =>
      simp only [h1, h2, Bool.or_self, Bool.and_self, if_true]
      unfold tform
      have hsz1 : s1.size = 2 * s1.l + 1 := by simp [Shell.size, h1]
      have hsz2 : s2.size = 2 * s2.l + 1 := by simp [Shell.size, h2]
      have hi' : i < 2 * s1.l + 1 := hsz1 ▸ hi
      have hj' : j < 2 * s2.l + 1 := hsz2 ▸ hj
      rw [hsz1, hsz2, mul_add_div_eq hj', mul_add_mod_eq hj',
        mul_add_div_eq hi', mul_add_mod_eq hi']
      rw [Finset.sum_comm]
      refine Finset.sum_congr rfl fun a ha => Finset.sum_congr rfl fun b hb => ?_
      rw [Finset.mem_range] at ha hb
      rw [← hsymm b a hb ha]
      ring

/-- C8: for any admissible pair of shells, the result of `compute(s1,s2)`
read as a row-major `size(s1) x size(s2)` matrix is the transpose of the
result of `compute(s2,s1)`, element for element.  The case of equal
angular momenta (where neither call swaps) relies on the external
recurrence kernels' mathematical transpose symmetry, stated as the
hypothesis `Hsym`; every other case follows from the engine's own
swap/un-swap logic alone. -/
theorem C8_onebody_symmetry
    (t : OBType) (cap : ℕ) (lm : ℤ) (q : List (ℝ × (Fin 3 → ℝ)))
    (pd : ℕ → Record) (st : ℝ) (tg sc : ℕ → ℝ)
    (K : OBKernel) (coef : SHCoef) (fm : ℝ → ℕ → ℝ) (s1 s2 : Shell)
    (ht : t ≠ OBType.invalid)
    (hq : t = OBType.nuclear → q ≠ [])
    (hcap : s1.nprim * s2.nprim ≤ cap)
    (hl : (max s1.l s2.l : ℤ) ≤ lm)
    (Hsym : ∀ (sa sb : Shell) (o : ℕ), sa.l = sb.l →
      ∀ i j, i < cartSize sa.l → j < cartSize sb.l →
        obBuf ⟨t, cap, lm, 0, q, pd, st, tg, sc⟩ K fm sa sb o
            (i * cartSize sb.l + j) =
          obBuf ⟨t, cap, lm, 0, q, pd, st, tg, sc⟩ K fm sb sa o
            (j * cartSize sa.l + i)) :
    ∃ r12 r21,
      (OneBodyEngine.compute ⟨t, cap, lm, 0, q, pd, st, tg, sc⟩
          K coef fm s1 s2).2 = Except.ok r12 ∧
      (OneBodyEngine.compute ⟨t, cap, lm, 0, q, pd, st, tg, sc⟩
          K coef fm s2 s1).2 = Except.ok r21 ∧
      ∀ i j, i < s1.size → j < s2.size →
        r12 (i * s2.size + j) = r21 (j * s1.size + i) := by
  have hm12 := oneBodyCompute_ok ⟨t, cap, lm, 0, q, pd, st, tg, sc⟩ K coef fm
    s1 s2 rfl ht hq hcap hl
  have hm21 := oneBodyCompute_ok ⟨t, cap, lm, 0, q, pd, st, tg, sc⟩ K coef fm
    s2 s1 rfl ht hq (by rw [Nat.mul_comm]; exact hcap)
    (by rw [max_comm]; exact hl)
  refine ⟨_, _, hm12.1, hm21.1, ?_⟩
  intro i j hi hj
  rw [hm12.2 _ (flat2_lt hi hj), hm21.2 _ (flat2_lt hj hi)]
  exact obResultSpec_symm _ K coef fm s1 s2 Hsym i j hi hj

/-- Witness for `C8_onebody_symmetry` at a concrete admissible input (two
unit s shells on an overlap engine; the kernel-symmetry contract holds
for the zero kernel). -/
theorem C8_witness :
    (OBType.overlap ≠ OBType.invalid ∧
      unitSShell.nprim * unitSShell.nprim ≤ 1 ∧
      ((max unitSShell.l unitSShell.l : ℕ) : ℤ) ≤ 0) ∧
    ∃ r12 r21,
      (OneBodyEngine.compute
          ⟨OBType.overlap, 1, 0, 0, [], fun _ => Record0, 0, fun _ => 0, fun _ => 0⟩
          obKernelZero shCoefZero fmZero unitSShell unitSShell).2 =
        Except.ok r12 ∧
      (OneBodyEngine.compute
          ⟨OBType.overlap, 1, 0, 0, [], fun _ => Record0, 0, fun _ => 0, fun _ => 0⟩
          obKernelZero shCoefZero fmZero unitSShell unitSShell).2 =
        Except.ok r21 ∧
      ∀ i j, i < unitSShell.size → j < unitSShell.size →
        r12 (i * unitSShell.size + j) = r21 (j * unitSShell.size + i) :=
  ⟨⟨fun h => OBType.noConfusion h, by simp [unitSShell, Shell.nprim],
    by simp [unitSShell]⟩,
   C8_onebody_symmetry OBType.overlap 1 0 [] (fun _ => Record0) 0 (fun _ => 0)
     (fun _ => 0) obKernelZero shCoefZero fmZero unitSShell unitSShell
     (fun h => OBType.noConfusion h) (fun h => OBType.noConfusion h)
     (by simp [unitSShell, Shell.nprim]) (by simp [unitSShell])
     (fun sa sb o h i j hi hj => rfl)⟩

/-! ### Two-body engine (`TwoBodyEngine<Kernel>`)

The embedding covers the `deriv_order_ = 0` configuration enforced by the
assert at the top of `TwoBodyEngine::compute`: the record fields written
only under `deriv_order_ > 0`, and the `TwoPRepITR_*` fields (disabled in
the assumed build, where those source lines would not compile), are not
modelled. -/

/-- `MultiplicativeSphericalTwoBodyKernel`. -/
inductive TBKernelKind
  | Coulomb
  | cGTG
  | cGTG_times_Coulomb
  | DelcGTG_square
deriving DecidableEq

/-- The fields of `Libint_t` populated by `TwoBodyEngine::compute_primdata`
in the standard build at derivative order 0: the core-integral array
`LIBINT_T_SS_EREP_SS(0)` (`Fm`) and the geometric prefactors. -/
structure Record2 where
  Fm : ℕ → ℝ
  PA : Fin 3 → ℝ
  PB : Fin 3 → ℝ
  QC : Fin 3 → ℝ
  QD : Fin 3 → ℝ
  AB : Fin 3 → ℝ
  BA : Fin 3 → ℝ
  CD : Fin 3 → ℝ
  DC : Fin 3 → ℝ
  WP : Fin 3 → ℝ
  WQ : Fin 3 → ℝ
  oo2z : ℝ
  oo2e : ℝ
  oo2ze : ℝ
  roz : ℝ
  roe : ℝ

/-- An all-zero two-body record. -/
def Record20 : Record2 :=
  { Fm := fun _ => 0
    PA := fun _ => 0, PB := fun _ => 0, QC := fun _ => 0, QD := fun _ => 0
    AB := fun _ => 0, BA := fun _ => 0, CD := fun _ => 0, DC := fun _ => 0
    WP := fun _ => 0, WQ := fun _ => 0
    oo2z := 0, oo2e := 0, oo2ze := 0, roz := 0, roe := 0 }

/-- The portion of a two-body record the recurrence kernel for a quartet of
total angular momentum `mmax` reads: core integrals up to order `mmax`
and the geometric prefactors. -/
def Record2.view (r : Record2) (mmax : ℕ) : Record2 :=
  { r with Fm := fun m => if m ≤ mmax then r.Fm m else 0 }

/-- The double literal `34.986836655249725693` of the source, idealised:
`(2 pi)^{5/2}`. -/
noncomputable def two_times_M_PI_to_25 : ℝ := Real.sqrt ((2 * Real.pi) ^ 5)

/-- `TwoBodyEngine<Kernel>`: configuration fixed at construction (kernel
kind, `primdata_.size()`, `lmax_`, `deriv_order_`, the transformed
core-integral parameters), and the mutable per-call storage (`primdata_`,
the `(ss|ss)` accumulation slot `primdata_[0].stack[0]`, the kernel target
buffer, `scratch_`, and `primdata_[0].contrdepth`). -/
structure TwoBodyEngine where
  kind : TBKernelKind
  primdata_size : ℕ
  lmax_ : ℤ
  deriv_order_ : ℕ
  core_ints_params_ : List (ℝ × ℝ)
  primdata : ℕ → Record2
  stack0 : ℝ
  targets : ℕ → ℝ
  scratch : ℕ → ℝ
  contrdepth : ℕ

/-- `TwoBodyEngine<DelcGTG_square>::init_core_ints_params`: one derived
term per ordered pair `(b, k)` with `k ≤ b`, with exponent
`oparams[b].first + oparams[k].first` and coefficient
`4 * oparams[b].first * oparams[k].first * (oparams[b].second *
oparams[k].second * (b == k ? 1 : 2))`; the generic specialisations copy
the parameters unchanged. -/
def init_core_ints_params (kind : TBKernelKind) (oparams : List (ℝ × ℝ)) :
    List (ℝ × ℝ) :=
  match kind with
  | TBKernelKind.DelcGTG_square =>
      (List.range oparams.length).flatMap fun b =>
        (List.range (b + 1)).map fun k =>
          ((oparams.getD b (0, 0)).1 + (oparams.getD k (0, 0)).1,
           4 * (oparams.getD b (0, 0)).1 * (oparams.getD k (0, 0)).1 *
             ((oparams.getD b (0, 0)).2 * (oparams.getD k (0, 0)).2 *
               (if b = k then 1 else 2)))
  | _ => oparams

/-- The usable constructor `TwoBodyEngine(max_nprim, max_l, deriv_order,
oparams)`: `primdata_` is sized `max_nprim^4`; the core-integral
parameters are transformed once here. -/
def mkTwoBodyEngine (kind : TBKernelKind) (max_nprim : ℕ) (max_l : ℤ)
    (deriv_order : ℕ) (oparams : List (ℝ × ℝ)) : TwoBodyEngine :=
  { kind := kind
    primdata_size := max_nprim * max_nprim * max_nprim * max_nprim
    lmax_ := max_l
    deriv_order_ := deriv_order
    core_ints_params_ := init_core_ints_params kind oparams
    primdata := fun _ => Record20
    stack0 := 0
    targets := fun _ => 0
    scratch := fun _ => 0
    contrdepth := 0 }

/-- `detail::TwoBodyEngineDispatcher<Kernel>::core_eval`: the `Coulomb`
specialisation calls the Boys evaluator `eval(Fm, T, mmax)` (`fmC`); the
three geminal specialisations call `eval(Gm, rho, T, mmax,
core_ints_params_)` (`gm`). -/
def coreEvalDispatch (kind : TBKernelKind)
    (fmC : ℝ → ℕ → ℕ → ℝ) (gm : List (ℝ × ℝ) → ℝ → ℝ → ℕ → ℕ → ℝ)
    (params : List (ℝ × ℝ)) (T rho : ℝ) (mmax m : ℕ) : ℝ :=
  match kind with
  | TBKernelKind.Coulomb => fmC T mmax m
  | TBKernelKind.cGTG => gm params rho T mmax m
  | TBKernelKind.cGTG_times_Coulomb => gm params rho T mmax m
  | TBKernelKind.DelcGTG_square => gm params rho T mmax m

/-- `TwoBodyEngine::compute_primdata(primdata, sbra1, sbra2, sket1, sket2,
pbra1, pbra2, pket1, pket2)`: evaluate the core integrals at
`T = rho * PQ^2`, scale orders `0..mmax` by the prefactor, and (unless
`mmax == 0`, when the function returns early) fill the geometric
prefactors. -/
noncomputable def TwoBodyEngine.compute_primdata (e : TwoBodyEngine)
    (fmC : ℝ → ℕ → ℕ → ℝ) (gm : List (ℝ × ℝ) → ℝ → ℝ → ℕ → ℕ → ℝ)
    (old : Record2) (sbra1 sbra2 sket1 sket2 : Shell)
    (pbra1 pbra2 pket1 pket2 : ℕ) : Record2 :=
  let A := sbra1.O
  let B := sbra2.O
  let C := sket1.O
  let D := sket2.O
  let alpha0 := sbra1.exponent pbra1
  let alpha1 := sbra2.exponent pbra2
  let alpha2 := sket1.exponent pket1
  let alpha3 := sket2.exponent pket2
  let c0 := sbra1.coefficient pbra1
  let c1 := sbra2.coefficient pbra2
  let c2 := sket1.coefficient pket1
  let c3 := sket2.coefficient pket2
  let amtot := sbra1.l + sket1.l + sbra2.l + sket2.l
  let gammap := alpha0 + alpha1
  let oogammap := 1 / gammap
  let rhop := alpha0 * alpha1 * oogammap
  let P : Fin 3 → ℝ := fun i => (alpha0 * A i + alpha1 * B i) * oogammap
  let ABv : Fin 3 → ℝ := fun i => A i - B i
  let AB2 := ABv 0 * ABv 0 + ABv 1 * ABv 1 + ABv 2 * ABv 2
  let gammaq := alpha2 + alpha3
  let oogammaq := 1 / gammaq
  let rhoq := alpha2 * alpha3 * oogammaq
  let gammapq := gammap + gammaq
  let sqrt_gammapq := Real.sqrt gammapq
  let oogammapq := 1 / gammapq
  let rho := gammap * gammaq * oogammapq
  let Q : Fin 3 → ℝ := fun i => (alpha2 * C i + alpha3 * D i) * oogammaq
  let CDv : Fin 3 → ℝ := fun i => C i - D i
  let CD2 := CDv 0 * CDv 0 + CDv 1 * CDv 1 + CDv 2 * CDv 2
  let PQ : Fin 3 → ℝ := fun i => P i - Q i
  let PQ2 := PQ 0 * PQ 0 + PQ 1 * PQ 1 + PQ 2 * PQ 2
  let K1 := Real.exp (-(rhop * AB2))
  let K2 := Real.exp (-(rhoq * CD2))
  let pfac := two_times_M_PI_to_25 * K1 * K2 * oogammap * oogammaq *
    sqrt_gammapq * oogammapq * c0 * c1 * c2 * c3
  let T := PQ2 * rho
  let mmax := amtot + e.deriv_order_
  let FmScaled : ℕ → ℝ := fun m =>
    if m ≤ mmax then
      coreEvalDispatch e.kind fmC gm e.core_ints_params_ T rho mmax m * pfac
    else old.Fm m
  if mmax = 0 then { old with Fm := FmScaled }
  else
    let W : Fin 3 → ℝ := fun i =>
      oogammapq * gammap * P i + oogammapq * gammaq * Q i
    { Fm := FmScaled
      PA := fun i => P i - A i
      PB := fun i => P i - B i
      QC := fun i => Q i - C i
      QD := fun i => Q i - D i
      AB := ABv
      BA := fun i => -ABv i
      CD := CDv
      DC := fun i => -CDv i
      WP := fun i => W i - P i
      WQ := fun i => W i - Q i
      oo2z := 0.5 * oogammap
      oo2e := 0.5 * oogammaq
      oo2ze := 0.5 * oogammapq
      roz := rho * oogammap
      roe := rho * oogammaq }

/-- Type of the external recurrence-kernel table `libint2_build_eri`: given
the four canonical angular momenta and the populated record views it
produces the contracted Cartesian `(b1 b2 | k1 k2)` buffer, row-major. -/
def TBKernel : Type := ℕ → ℕ → ℕ → ℕ → List Record2 → (ℕ → ℝ)

/-- The record array after the quadruple primitive loop of
`TwoBodyEngine::compute` (record `p` holds primitive quadruple
`(p / (n2*n3*n4), p / (n3*n4) % n2, p / n4 % n3, p % n4)`). -/
noncomputable def tbPrimdata (e : TwoBodyEngine) (fmC : ℝ → ℕ → ℕ → ℝ)
    (gm : List (ℝ × ℝ) → ℝ → ℝ → ℕ → ℕ → ℝ)
    (bra1 bra2 ket1 ket2 : Shell) : ℕ → Record2 := fun p =>
  let n2 := bra2.nprim
  let n3 := ket1.nprim
  let n4 := ket2.nprim
  if p < bra1.nprim * n2 * n3 * n4 then
    e.compute_primdata fmC gm (e.primdata p) bra1 bra2 ket1 ket2
      (p / (n2 * n3 * n4)) (p / (n3 * n4) % n2) (p / n4 % n3) (p % n4)
  else e.primdata p

/-- Kernel input: the views of the records of the primitive loop. -/
noncomputable def tbViews (e : TwoBodyEngine) (fmC : ℝ → ℕ → ℕ → ℝ)
    (gm : List (ℝ × ℝ) → ℝ → ℝ → ℕ → ℕ → ℝ)
    (bra1 bra2 ket1 ket2 : Shell) : List Record2 :=
  (List.range (bra1.nprim * bra2.nprim * ket1.nprim * ket2.nprim)).map
    fun p => (tbPrimdata e fmC gm bra1 bra2 ket1 ket2 p).view
      (bra1.l + ket1.l + bra2.l + ket2.l + e.deriv_order_)

/-- Contracted Cartesian `(b1 b2 | k1 k2)` buffer produced by the
recurrence kernel. -/
noncomputable def tbBuf (e : TwoBodyEngine) (K2 : TBKernel)
    (fmC : ℝ → ℕ → ℕ → ℝ) (gm : List (ℝ × ℝ) → ℝ → ℝ → ℕ → ℕ → ℝ)
    (bra1 bra2 ket1 ket2 : Shell) : ℕ → ℝ :=
  K2 bra1.l bra2.l ket1.l ket2.l (tbViews e fmC gm bra1 bra2 ket1 ket2)

/-- The `(ss|ss)` shortcut accumulation: the sum of the order-0 core
integrals over every primitive quadruple (into the zeroed stack slot). -/
noncomputable def tbStack (e : TwoBodyEngine) (fmC : ℝ → ℕ → ℕ → ℝ)
    (gm : List (ℝ × ℝ) → ℝ → ℝ → ℕ → ℕ → ℝ)
    (bra1 bra2 ket1 ket2 : Shell) : ℝ :=
  ∑ p ∈ Finset.range (bra1.nprim * bra2.nprim * ket1.nprim * ket2.nprim),
    (tbPrimdata e fmC gm bra1 bra2 ket1 ket2 p).Fm 0

/-- Sequential element writes `pos ↦ val` over a buffer. -/
def applyWrites (ws : List (ℕ × ℝ)) (f : ℕ → ℝ) : ℕ → ℝ :=
  ws.foldl (fun g w => Function.update g w.1 w.2) f

/-- The writes of a doubly nested loop of block assignments, in loop
order. -/
def quadWrites (n1 n2 n3 n4 : ℕ) (pos : ℕ → ℕ → ℕ → ℕ → ℕ)
    (val : ℕ → ℕ → ℕ → ℕ → ℝ) : List (ℕ × ℝ) :=
  (List.range n1).flatMap fun r1 =>
    (List.range n2).flatMap fun r2 =>
      (List.range n3).flatMap fun a =>
        (List.range n4).map fun b => (pos r1 r2 a b, val r1 r2 a b)

/-- The un-permutation block copy of `TwoBodyEngine::compute` (the loop
over the rows of the source matrix), as the sequence of element writes it
performs: for each source row `{r1,r2}` the source block (an `nc1 x nc2`
row-major matrix) is copied, possibly transposed, to a column block (when
bra and ket were swapped) or a row block of the target; `nr1 nr2 nc1 nc2`
are the canonical bra/ket sizes and `t1 t2 t3 t4` the caller's. -/
def unpermuteWrites (swap_braket swap_bra swap_ket : Bool)
    (nr1 nr2 nc1 nc2 t1 t2 t3 t4 : ℕ) (mb : ℕ → ℝ) : List (ℕ × ℝ) :=
  let ncol := nc1 * nc2
  let ncol_tgt := t3 * t4
  let src : ℕ → ℕ → ℕ → ℕ → ℝ := fun r1 r2 i j =>
    mb ((r1 * nr2 + r2) * ncol + i * nc2 + j)
  if swap_braket then
    quadWrites nr1 nr2 t1 t2
      (fun r1 r2 a b =>
        (if swap_ket then r2 * nr1 + r1 else r1 * nr2 + r2) +
          a * (t2 * ncol_tgt) + b * ncol_tgt)
      (fun r1 r2 a b => if swap_bra then src r1 r2 b a else src r1 r2 a b)
  else
    quadWrites nr1 nr2 t3 t4
      (fun r1 r2 a b =>
        (if swap_bra then r2 * nr1 + r1 else r1 * nr2 + r2) * ncol +
          a * t4 + b)
      (fun r1 r2 a b => if swap_ket then src r1 r2 b a else src r1 r2 a b)

/-- The solid-harmonics transform chain and un-permutation block copy of
`TwoBodyEngine::compute` (the `use_scratch` path after the recurrence
kernel): transform each pure axis in canonical order
(`transform_first`/`transform_inner`/`transform_last`, with buffer swaps
modelled by value), then copy every source row block to its target
position over the previous scratch contents. -/
noncomputable def tbScratchResult (tf1 : ℕ → ℕ → (ℕ → ℝ) → (ℕ → ℝ))
    (tfi : ℕ → ℕ → ℕ → (ℕ → ℝ) → (ℕ → ℝ))
    (tfl : ℕ → ℕ → (ℕ → ℝ) → (ℕ → ℝ))
    (swap_braket swap_bra swap_ket : Bool)
    (bra1 bra2 ket1 ket2 tbra1 tbra2 tket1 tket2 : Shell)
    (buf scr : ℕ → ℝ) : ℕ → ℝ :=
  let ncol_cart := ket1.cartesian_size * ket2.cartesian_size
  let mb1 := if bra1.pure then
      tf1 bra1.l (bra2.cartesian_size * ncol_cart) buf else buf
  let mb2 := if bra2.pure then
      tfi bra1.size bra2.l ncol_cart mb1 else mb1
  let mb3 := if ket1.pure then
      tfi (bra1.size * bra2.size) ket1.l ket2.cartesian_size mb2 else mb2
  let mb4 := if ket2.pure then
      tfl (bra1.size * bra2.size * ket1.size) ket2.l mb3 else mb3
  applyWrites
    (unpermuteWrites swap_braket swap_bra swap_ket
      bra1.size bra2.size ket1.size ket2.size
      tbra1.size tbra2.size tket1.size tket2.size mb4) scr

/-- `TwoBodyEngine::compute(tbra1, tbra2, tket1, tket2)`: assert the
derivative order, canonicalise the quartet by the three swap decisions,
assemble the primitive records (the source has only the comment
`// assert # of primitive pairs` here: the record-array capacity is never
checked), shortcut `(ss|ss)` through the stack slot or run the recurrence
kernel, then transform to solid harmonics (`tf1`/`tfi`/`tfl` are the
external `transform_first`/`transform_inner`/`transform_last`) and
un-permute through scratch when needed. -/
noncomputable def TwoBodyEngine.compute (e : TwoBodyEngine) (K2 : TBKernel)
    (fmC : ℝ → ℕ → ℕ → ℝ) (gm : List (ℝ × ℝ) → ℝ → ℝ → ℕ → ℕ → ℝ)
    (tf1 : ℕ → ℕ → (ℕ → ℝ) → (ℕ → ℝ))
    (tfi : ℕ → ℕ → ℕ → (ℕ → ℝ) → (ℕ → ℝ))
    (tfl : ℕ → ℕ → (ℕ → ℝ) → (ℕ → ℝ))
    (tbra1 tbra2 tket1 tket2 : Shell) :
    TwoBodyEngine × Except OBError (ℕ → ℝ) :=
  if e.deriv_order_ ≠ 0 then
    (e, Except.error (OBError.assertFail "deriv_order_ == 0"))
  else
    let swap_bra := decide (tbra1.l < tbra2.l)
    let swap_ket := decide (tket1.l < tket2.l)
    let swap_braket := decide (tket1.l + tket2.l < tbra1.l + tbra2.l)
    let bra1 := if swap_braket then (if swap_ket then tket2 else tket1)
                else (if swap_bra then tbra2 else tbra1)
    let bra2 := if swap_braket then (if swap_ket then tket1 else tket2)
                else (if swap_bra then tbra1 else tbra2)
    let ket1 := if swap_braket then (if swap_bra then tbra2 else tbra1)
                else (if swap_ket then tket2 else tket1)
    let ket2 := if swap_braket then (if swap_bra then tbra1 else tbra2)
                else (if swap_ket then tket1 else tket2)
    let tform := tbra1.pure || tbra2.pure || tket1.pure || tket2.pure
    let use_scratch := swap_braket || swap_bra || swap_ket || tform
    let lmax := max (max bra1.l bra2.l) (max ket1.l ket2.l)
    if ¬ (lmax : ℤ) ≤ e.lmax_ then
      (e, Except.error (OBError.assertFail "lmax <= lmax_"))
    else
      let total := bra1.nprim * bra2.nprim * ket1.nprim * ket2.nprim
      let pd' := tbPrimdata e fmC gm bra1 bra2 ket1 ket2
      if lmax = 0 then
        let stackv := tbStack e fmC gm bra1 bra2 ket1 ket2
        ({ e with primdata := pd', stack0 := stackv, contrdepth := total },
         Except.ok (fun i => if i = 0 then stackv else 0))
      else
        let buf := tbBuf e K2 fmC gm bra1 bra2 ket1 ket2
        if use_scratch then
          let res := tbScratchResult tf1 tfi tfl swap_braket swap_bra swap_ket
            bra1 bra2 ket1 ket2 tbra1 tbra2 tket1 tket2 buf e.scratch
          ({ e with
              primdata := pd'
              targets := buf
              scratch := res
              contrdepth := total },
           Except.ok res)
        else
          ({ e with primdata := pd', targets := buf, contrdepth := total },
           Except.ok buf)

/-- A buffer position that every remaining write leaves at `v` reads `v`. -/
theorem applyWrites_persist (ws : List (ℕ × ℝ)) (f : ℕ → ℝ) (p : ℕ) (v : ℝ)
    (hf : f p = v) (hall : ∀ w ∈ ws, w.1 = p → w.2 = v) :
    applyWrites ws f p = v := by
  induction ws generalizing f with
  | nil => exact hf
  | cons w ws ih =>
    show applyWrites ws (Function.update f w.1 w.2) p = v
    refine ih _ ?_ fun w' hw' => hall w' (List.mem_cons_of_mem _ hw')
    by_cases hw : w.1 = p
    · rw [← hw, Function.update_same]
      exact hall w (List.mem_cons_self _ _) hw
    · rw [Function.update_noteq fun h => hw h.symm]
      exact hf

/-- A written position reads back its value when every write colliding
with it carries the same value. -/
theorem applyWrites_eq (ws : List (ℕ × ℝ)) (f : ℕ → ℝ) (p : ℕ) (v : ℝ)
    (hmem : (p, v) ∈ ws) (hall : ∀ w ∈ ws, w.1 = p → w.2 = v) :
    applyWrites ws f p = v := by
  induction ws generalizing f with
  | nil => cases hmem
  | cons w ws ih =>
    show applyWrites ws (Function.update f w.1 w.2) p = v
    rcases List.mem_cons.mp hmem with h | h
    · refine applyWrites_persist ws _ p v ?_
        fun w' hw' => hall w' (List.mem_cons_of_mem _ hw')
      rw [← h, Function.update_same]
    · exact ih _ h fun w' hw' => hall w' (List.mem_cons_of_mem _ hw')

/-- Reading a position written by a nested block-write loop. -/
theorem quadWrites_lookup (n1 n2 n3 n4 : ℕ) (pos : ℕ → ℕ → ℕ → ℕ → ℕ)
    (val : ℕ → ℕ → ℕ → ℕ → ℝ) (f : ℕ → ℝ) (r1 r2 a b : ℕ)
    (h1 : r1 < n1) (h2 : r2 < n2) (h3 : a < n3) (h4 : b < n4)
    (huniq : ∀ r1' r2' a' b', r1' < n1 → r2' < n2 → a' < n3 → b' < n4 →
      pos r1' r2' a' b' = pos r1 r2 a b →
      val r1' r2' a' b' = val r1 r2 a b) :
    applyWrites (quadWrites n1 n2 n3 n4 pos val) f (pos r1 r2 a b) =
      val r1 r2 a b := by
  apply applyWrites_eq
  · simp only [quadWrites, List.mem_flatMap, List.mem_map, List.mem_range]
    exact ⟨r1, h1, r2, h2, a, h3, b, h4, rfl⟩
  · intro w hw hwp
    simp only [quadWrites, List.mem_flatMap, List.mem_map, List.mem_range] at hw
    obtain ⟨r1', h1', r2', h2', a', h3', b', h4', hw⟩ := hw
    rw [← hw] at hwp ⊢
    exact huniq r1' r2' a' b' h1' h2' h3' h4' hwp

/-- Decoding a flat quadruple index below `t1 * t2 * t3 * t4`. -/
theorem flat4_surj {p t1 t2 t3 t4 : ℕ} (h : p < t1 * t2 * t3 * t4) :
    p / t4 / t3 / t2 < t1 ∧ p / t4 / t3 % t2 < t2 ∧
      p / t4 % t3 < t3 ∧ p % t4 < t4 ∧
      ((p / t4 / t3 / t2 * t2 + p / t4 / t3 % t2) * t3 + p / t4 % t3) * t4 +
        p % t4 = p := by
  have h4 : 0 < t4 := by
    rcases Nat.eq_zero_or_pos t4 with h' | h'
    · simp [h'] at h
    · exact h'
  have h3 : 0 < t3 := by
    rcases Nat.eq_zero_or_pos t3 with h' | h'
    · simp [h'] at h
    · exact h'
  have h2 : 0 < t2 := by
    rcases Nat.eq_zero_or_pos t2 with h' | h'
    · simp [h'] at h
    · exact h'
  have hd4 : p / t4 < t1 * t2 * t3 := div_lt_of_lt_mul' h
  have hd3 : p / t4 / t3 < t1 * t2 := div_lt_of_lt_mul' hd4
  have hd2 : p / t4 / t3 / t2 < t1 := div_lt_of_lt_mul' hd3
  have e2 : p / t4 / t3 / t2 * t2 + p / t4 / t3 % t2 = p / t4 / t3 := by
    rw [Nat.mul_comm]
    exact Nat.div_add_mod _ _
  have e3 : p / t4 / t3 * t3 + p / t4 % t3 = p / t4 := by
    rw [Nat.mul_comm]
    exact Nat.div_add_mod _ _
  have e4 : p / t4 * t4 + p % t4 = p := by
    rw [Nat.mul_comm]
    exact Nat.div_add_mod _ _
  exact ⟨hd2, Nat.mod_lt _ h2, Nat.mod_lt _ h3, Nat.mod_lt _ h4,
    by rw [e2, e3, e4]⟩

/-- Reading the un-permuted buffer when bra and ket were not swapped: the
caller's element `(i1,i2,i3,i4)` holds the canonical element obtained by
undoing the within-bra and within-ket swaps. -/
theorem unpermuteWrites_lookup_nobk (sb sk : Bool)
    (nr1 nr2 nc1 nc2 t1 t2 t3 t4 : ℕ) (mb f : ℕ → ℝ)
    (hr1 : nr1 = if sb then t2 else t1) (hr2 : nr2 = if sb then t1 else t2)
    (hc1 : nc1 = if sk then t4 else t3) (hc2 : nc2 = if sk then t3 else t4)
    {i1 i2 i3 i4 : ℕ} (h1 : i1 < t1) (h2 : i2 < t2) (h3 : i3 < t3)
    (h4 : i4 < t4) :
    applyWrites (unpermuteWrites false sb sk nr1 nr2 nc1 nc2 t1 t2 t3 t4 mb) f
        (((i1 * t2 + i2) * t3 + i3) * t4 + i4)
      = mb (((if sb then i2 else i1) * nr2 + (if sb then i1 else i2)) *
            (nc1 * nc2) + (if sk then i4 else i3) * nc2 +
            (if sk then i3 else i4)) := by
  cases sb with
  | false =>
    cases sk with
    | false =>
      simp only [Bool.false_eq_true, if_false] at hr1 hr2 hc1 hc2 ⊢
      subst nr1 nr2 nc1 nc2
      simp only [unpermuteWrites, Bool.false_eq_true, if_false]
      have hP : ((i1 * t2 + i2) * t3 + i3) * t4 + i4 =
          (i1 * t2 + i2) * (t3 * t4) + i3 * t4 + i4 := by ring
      rw [hP]
      have huniq : ∀ r1' r2' a' b', r1' < t1 → r2' < t2 → a' < t3 → b' < t4 →
          (r1' * t2 + r2') * (t3 * t4) + a' * t4 + b' =
            (i1 * t2 + i2) * (t3 * t4) + i3 * t4 + i4 →
          mb ((r1' * t2 + r2') * (t3 * t4) + a' * t4 + b') =
            mb ((i1 * t2 + i2) * (t3 * t4) + i3 * t4 + i4) :=
        fun r1' r2' a' b' _ _ _ _ heq => by rw [heq]
      exact quadWrites_lookup t1 t2 t3 t4 _ _ f i1 i2 i3 i4 h1 h2 h3 h4 huniq
    | true =>
      simp only [Bool.false_eq_true, if_false, if_true] at hr1 hr2 hc1 hc2 ⊢
      subst nr1 nr2 nc1 nc2
      simp only [unpermuteWrites, Bool.false_eq_true, if_false, if_true]
      have hP : ((i1 * t2 + i2) * t3 + i3) * t4 + i4 =
          (i1 * t2 + i2) * (t4 * t3) + i3 * t4 + i4 := by ring
      rw [hP]
      have huniq : ∀ r1' r2' a' b', r1' < t1 → r2' < t2 → a' < t3 → b' < t4 →
          (r1' * t2 + r2') * (t4 * t3) + a' * t4 + b' =
            (i1 * t2 + i2) * (t4 * t3) + i3 * t4 + i4 →
          mb ((r1' * t2 + r2') * (t4 * t3) + b' * t3 + a') =
            mb ((i1 * t2 + i2) * (t4 * t3) + i4 * t3 + i3) := by
        intro r1' r2' a' b' h1' h2' h3' h4' heq
        rw [Nat.add_assoc, Nat.add_assoc] at heq
        have hin1 : a' * t4 + b' < t4 * t3 := by
          rw [Nat.mul_comm t4 t3]
          exact flat2_lt h3' h4'
        have hin2 : i3 * t4 + i4 < t4 * t3 := by
          rw [Nat.mul_comm t4 t3]
          exact flat2_lt h3 h4
        obtain ⟨hrow, hinner⟩ := flat2_inj hin1 hin2 heq
        obtain ⟨ha, hb⟩ := flat2_inj h4' h4 hinner
        obtain ⟨hx, hy⟩ := flat2_inj h2' h2 hrow
        subst ha hb hx hy
        rfl
      exact quadWrites_lookup t1 t2 t3 t4 _ _ f i1 i2 i3 i4 h1 h2 h3 h4 huniq
  | true =>
    cases sk with
    | false =>
      simp only [Bool.false_eq_true, if_false, if_true] at hr1 hr2 hc1 hc2 ⊢
      subst nr1 nr2 nc1 nc2
      simp only [unpermuteWrites, Bool.false_eq_true, if_false, if_true]
      have hP : ((i1 * t2 + i2) * t3 + i3) * t4 + i4 =
          (i1 * t2 + i2) * (t3 * t4) + i3 * t4 + i4 := by ring
      rw [hP]
      have huniq : ∀ r1' r2' a' b', r1' < t2 → r2' < t1 → a' < t3 → b' < t4 →
          (r2' * t2 + r1') * (t3 * t4) + a' * t4 + b' =
            (i1 * t2 + i2) * (t3 * t4) + i3 * t4 + i4 →
          mb ((r1' * t1 + r2') * (t3 * t4) + a' * t4 + b') =
            mb ((i2 * t1 + i1) * (t3 * t4) + i3 * t4 + i4) := by
        intro r1' r2' a' b' h1' h2' h3' h4' heq
        rw [Nat.add_assoc, Nat.add_assoc] at heq
        obtain ⟨hrow, hinner⟩ :=
          flat2_inj (flat2_lt h3' h4') (flat2_lt h3 h4) heq
        obtain ⟨ha, hb⟩ := flat2_inj h4' h4 hinner
        obtain ⟨hx, hy⟩ := flat2_inj h1' h2 hrow
        subst ha hb hx hy
        rfl
      exact quadWrites_lookup t2 t1 t3 t4 _ _ f i2 i1 i3 i4 h2 h1 h3 h4 huniq
    | true =>
      simp only [if_true] at hr1 hr2 hc1 hc2 ⊢
      subst nr1 nr2 nc1 nc2
      simp only [unpermuteWrites, Bool.false_eq_true, if_false, if_true]
      have hP : ((i1 * t2 + i2) * t3 + i3) * t4 + i4 =
          (i1 * t2 + i2) * (t4 * t3) + i3 * t4 + i4 := by ring
      rw [hP]
      have huniq : ∀ r1' r2' a' b', r1' < t2 → r2' < t1 → a' < t3 → b' < t4 →
          (r2' * t2 + r1') * (t4 * t3) + a' * t4 + b' =
            (i1 * t2 + i2) * (t4 * t3) + i3 * t4 + i4 →
          mb ((r1' * t1 + r2') * (t4 * t3) + b' * t3 + a') =
            mb ((i2 * t1 + i1) * (t4 * t3) + i4 * t3 + i3) := by
        intro r1' r2' a' b' h1' h2' h3' h4' heq
        rw [Nat.add_assoc, Nat.add_assoc] at heq
        have hin1 : a' * t4 + b' < t4 * t3 := by
          rw [Nat.mul_comm t4 t3]
          exact flat2_lt h3' h4'
        have hin2 : i3 * t4 + i4 < t4 * t3 := by
          rw [Nat.mul_comm t4 t3]
          exact flat2_lt h3 h4
        obtain ⟨hrow, hinner⟩ := flat2_inj hin1 hin2 heq
        obtain ⟨ha, hb⟩ := flat2_inj h4' h4 hinner
        obtain ⟨hx, hy⟩ := flat2_inj h1' h2 hrow
        subst ha hb hx hy
        rfl
      exact quadWrites_lookup t2 t1 t3 t4 _ _ f i2 i1 i3 i4 h2 h1 h3 h4 huniq

/-- Reading the un-permuted buffer when bra and ket were swapped: a source
row becomes a column block of the target. -/
theorem unpermuteWrites_lookup_bk (sb sk : Bool)
    (nr1 nr2 nc1 nc2 t1 t2 t3 t4 : ℕ) (mb f : ℕ → ℝ)
    (hr1 : nr1 = if sk then t4 else t3) (hr2 : nr2 = if sk then t3 else t4)
    (hc1 : nc1 = if sb then t2 else t1) (hc2 : nc2 = if sb then t1 else t2)
    {i1 i2 i3 i4 : ℕ} (h1 : i1 < t1) (h2 : i2 < t2) (h3 : i3 < t3)
    (h4 : i4 < t4) :
    applyWrites (unpermuteWrites true sb sk nr1 nr2 nc1 nc2 t1 t2 t3 t4 mb) f
        (((i1 * t2 + i2) * t3 + i3) * t4 + i4)
      = mb (((if sk then i4 else i3) * nr2 + (if sk then i3 else i4)) *
            (nc1 * nc2) + (if sb then i2 else i1) * nc2 +
            (if sb then i1 else i2)) := by
  cases sb with
  | false =>
    cases sk with
    | false =>
      simp only [Bool.false_eq_true, if_false] at hr1 hr2 hc1 hc2 ⊢
      subst nr1 nr2 nc1 nc2
      simp only [unpermuteWrites, Bool.false_eq_true, if_false, if_true]
      have hP : ((i1 * t2 + i2) * t3 + i3) * t4 + i4 =
          i3 * t4 + i4 + i1 * (t2 * (t3 * t4)) + i2 * (t3 * t4) := by ring
      rw [hP]
      have huniq : ∀ r1' r2' a' b', r1' < t3 → r2' < t4 → a' < t1 → b' < t2 →
          r1' * t4 + r2' + a' * (t2 * (t3 * t4)) + b' * (t3 * t4) =
            i3 * t4 + i4 + i1 * (t2 * (t3 * t4)) + i2 * (t3 * t4) →
          mb ((r1' * t4 + r2') * (t1 * t2) + a' * t2 + b') =
            mb ((i3 * t4 + i4) * (t1 * t2) + i1 * t2 + i2) := by
        intro r1' r2' a' b' h1' h2' h3' h4' heq
        have re : ∀ x y z : ℕ,
            x + y * (t2 * (t3 * t4)) + z * (t3 * t4) =
              (y * t2 + z) * (t3 * t4) + x := fun x y z => by ring
        rw [re, re] at heq
        obtain ⟨hcol, hidx⟩ :=
          flat2_inj (flat2_lt h1' h2') (flat2_lt h3 h4) heq
        obtain ⟨hx, hy⟩ := flat2_inj h2' h4 hidx
        obtain ⟨ha, hb⟩ := flat2_inj h4' h2 hcol
        subst hx hy ha hb
        rfl
      exact quadWrites_lookup t3 t4 t1 t2 _ _ f i3 i4 i1 i2 h3 h4 h1 h2 huniq
    | true =>
      simp only [Bool.false_eq_true, if_false, if_true] at hr1 hr2 hc1 hc2 ⊢
      subst nr1 nr2 nc1 nc2
      simp only [unpermuteWrites, Bool.false_eq_true, if_false, if_true]
      have hP : ((i1 * t2 + i2) * t3 + i3) * t4 + i4 =
          i3 * t4 + i4 + i1 * (t2 * (t3 * t4)) + i2 * (t3 * t4) := by ring
      rw [hP]
      have huniq : ∀ r1' r2' a' b', r1' < t4 → r2' < t3 → a' < t1 → b' < t2 →
          r2' * t4 + r1' + a' * (t2 * (t3 * t4)) + b' * (t3 * t4) =
            i3 * t4 + i4 + i1 * (t2 * (t3 * t4)) + i2 * (t3 * t4) →
          mb ((r1' * t3 + r2') * (t1 * t2) + a' * t2 + b') =
            mb ((i4 * t3 + i3) * (t1 * t2) + i1 * t2 + i2) := by
        intro r1' r2' a' b' h1' h2' h3' h4' heq
        have re : ∀ x y z : ℕ,
            x + y * (t2 * (t3 * t4)) + z * (t3 * t4) =
              (y * t2 + z) * (t3 * t4) + x := fun x y z => by ring
        rw [re, re] at heq
        obtain ⟨hcol, hidx⟩ :=
          flat2_inj (flat2_lt h2' h1') (flat2_lt h3 h4) heq
        obtain ⟨hx, hy⟩ := flat2_inj h1' h4 hidx
        obtain ⟨ha, hb⟩ := flat2_inj h4' h2 hcol
        subst hx hy ha hb
        rfl
      exact quadWrites_lookup t4 t3 t1 t2 _ _ f i4 i3 i1 i2 h4 h3 h1 h2 huniq
  | true =>
    cases sk with
    | false =>
      simp only [Bool.false_eq_true, if_false, if_true] at hr1 hr2 hc1 hc2 ⊢
      subst nr1 nr2 nc1 nc2
      simp only [unpermuteWrites, Bool.false_eq_true, if_false, if_true]
      have hP : ((i1 * t2 + i2) * t3 + i3) * t4 + i4 =
          i3 * t4 + i4 + i1 * (t2 * (t3 * t4)) + i2 * (t3 * t4) := by ring
      rw [hP]
      have huniq : ∀ r1' r2' a' b', r1' < t3 → r2' < t4 → a' < t1 → b' < t2 →
          r1' * t4 + r2' + a' * (t2 * (t3 * t4)) + b' * (t3 * t4) =
            i3 * t4 + i4 + i1 * (t2 * (t3 * t4)) + i2 * (t3 * t4) →
          mb ((r1' * t4 + r2') * (t2 * t1) + b' * t1 + a') =
            mb ((i3 * t4 + i4) * (t2 * t1) + i2 * t1 + i1) := by
        intro r1' r2' a' b' h1' h2' h3' h4' heq
        have re : ∀ x y z : ℕ,
            x + y * (t2 * (t3 * t4)) + z * (t3 * t4) =
              (y * t2 + z) * (t3 * t4) + x := fun x y z => by ring
        rw [re, re] at heq
        obtain ⟨hcol, hidx⟩ :=
          flat2_inj (flat2_lt h1' h2') (flat2_lt h3 h4) heq
        obtain ⟨hx, hy⟩ := flat2_inj h2' h4 hidx
        obtain ⟨ha, hb⟩ := flat2_inj h4' h2 hcol
        subst hx hy ha hb
        rfl
      exact quadWrites_lookup t3 t4 t1 t2 _ _ f i3 i4 i1 i2 h3 h4 h1 h2 huniq
    | true =>
      simp only [if_true] at hr1 hr2 hc1 hc2 ⊢
      subst nr1 nr2 nc1 nc2
      simp only [unpermuteWrites, Bool.false_eq_true, if_false, if_true]
      have hP : ((i1 * t2 + i2) * t3 + i3) * t4 + i4 =
          i3 * t4 + i4 + i1 * (t2 * (t3 * t4)) + i2 * (t3 * t4) := by ring
      rw [hP]
      have huniq : ∀ r1' r2' a' b', r1' < t4 → r2' < t3 → a' < t1 → b' < t2 →
          r2' * t4 + r1' + a' * (t2 * (t3 * t4)) + b' * (t3 * t4) =
            i3 * t4 + i4 + i1 * (t2 * (t3 * t4)) + i2 * (t3 * t4) →
          mb ((r1' * t3 + r2') * (t2 * t1) + b' * t1 + a') =
            mb ((i4 * t3 + i3) * (t2 * t1) + i2 * t1 + i1) := by
        intro r1' r2' a' b' h1' h2' h3' h4' heq
        have re : ∀ x y z : ℕ,
            x + y * (t2 * (t3 * t4)) + z * (t3 * t4) =
              (y * t2 + z) * (t3 * t4) + x := fun x y z => by ring
        rw [re, re] at heq
        obtain ⟨hcol, hidx⟩ :=
          flat2_inj (flat2_lt h2' h1') (flat2_lt h3 h4) heq
        obtain ⟨hx, hy⟩ := flat2_inj h1' h4 hidx
        obtain ⟨ha, hb⟩ := flat2_inj h4' h2 hcol
        subst hx hy ha hb
        rfl
      exact quadWrites_lookup t4 t3 t1 t2 _ _ f i4 i3 i1 i2 h4 h3 h1 h2 huniq

/-- The core-integral entries up to `mmax` of a freshly assembled two-body
record depend neither on the record's previous contents nor on the
mutable engine state. -/
theorem compute_primdata2_Fm_stable (e e' : TwoBodyEngine)
    (fmC : ℝ → ℕ → ℕ → ℝ) (gm : List (ℝ × ℝ) → ℝ → ℝ → ℕ → ℕ → ℝ)
    (old old' : Record2) (b1 b2 k1 k2 : Shell) (p1 p2 p3 p4 m : ℕ)
    (hk : e.kind = e'.kind) (hp : e.core_ints_params_ = e'.core_ints_params_)
    (hd : e.deriv_order_ = e'.deriv_order_)
    (hm : m ≤ b1.l + k1.l + b2.l + k2.l + e.deriv_order_) :
    (e.compute_primdata fmC gm old b1 b2 k1 k2 p1 p2 p3 p4).Fm m =
      (e'.compute_primdata fmC gm old' b1 b2 k1 k2 p1 p2 p3 p4).Fm m := by
  rw [hd] at hm
  simp only [TwoBodyEngine.compute_primdata, hk, hp, hd]
  by_cases h0 : b1.l + k1.l + b2.l + k2.l + e'.deriv_order_ = 0
  · have hm0 : m = 0 := by omega
    simp [h0, hm0]
  · simp [h0, hm]

/-- The kernel-visible view of a freshly assembled two-body record for a
quartet of nonzero total angular momentum depends neither on the record's
previous contents nor on the mutable engine state. -/
theorem compute_primdata2_view_stable (e e' : TwoBodyEngine)
    (fmC : ℝ → ℕ → ℕ → ℝ) (gm : List (ℝ × ℝ) → ℝ → ℝ → ℕ → ℕ → ℝ)
    (old old' : Record2) (b1 b2 k1 k2 : Shell) (p1 p2 p3 p4 : ℕ)
    (hk : e.kind = e'.kind) (hp : e.core_ints_params_ = e'.core_ints_params_)
    (hd : e.deriv_order_ = e'.deriv_order_)
    (h0 : b1.l + k1.l + b2.l + k2.l + e.deriv_order_ ≠ 0) :
    (e.compute_primdata fmC gm old b1 b2 k1 k2 p1 p2 p3 p4).view
        (b1.l + k1.l + b2.l + k2.l + e.deriv_order_) =
      (e'.compute_primdata fmC gm old' b1 b2 k1 k2 p1 p2 p3 p4).view
        (b1.l + k1.l + b2.l + k2.l + e'.deriv_order_) := by
  rw [hd] at h0 ⊢
  simp only [TwoBodyEngine.compute_primdata, hk, hp, hd]
  rw [if_neg h0, if_neg h0]
  simp only [Record2.view]
  congr 1
  funext m
  by_cases hm : m ≤ b1.l + k1.l + b2.l + k2.l + e'.deriv_order_ <;> simp [hm]

/-- The kernel input list depends only on the engine configuration when
the quartet's total angular momentum is nonzero. -/
theorem tbViews_stable (e e' : TwoBodyEngine)
    (fmC : ℝ → ℕ → ℕ → ℝ) (gm : List (ℝ × ℝ) → ℝ → ℝ → ℕ → ℕ → ℝ)
    (b1 b2 k1 k2 : Shell)
    (hk : e.kind = e'.kind) (hp : e.core_ints_params_ = e'.core_ints_params_)
    (hd : e.deriv_order_ = e'.deriv_order_)
    (h0 : b1.l + k1.l + b2.l + k2.l + e.deriv_order_ ≠ 0) :
    tbViews e fmC gm b1 b2 k1 k2 = tbViews e' fmC gm b1 b2 k1 k2 := by
  unfold tbViews
  refine List.map_congr_left fun p hp' => ?_
  rw [List.mem_range] at hp'
  unfold tbPrimdata
  rw [if_pos hp', if_pos hp']
  exact compute_primdata2_view_stable e e' fmC gm _ _ b1 b2 k1 k2 _ _ _ _
    hk hp hd h0

/-- The kernel output buffer depends only on the engine configuration when
the quartet's total angular momentum is nonzero. -/
theorem tbBuf_stable (e e' : TwoBodyEngine) (K2 : TBKernel)
    (fmC : ℝ → ℕ → ℕ → ℝ) (gm : List (ℝ × ℝ) → ℝ → ℝ → ℕ → ℕ → ℝ)
    (b1 b2 k1 k2 : Shell)
    (hk : e.kind = e'.kind) (hp : e.core_ints_params_ = e'.core_ints_params_)
    (hd : e.deriv_order_ = e'.deriv_order_)
    (h0 : b1.l + k1.l + b2.l + k2.l + e.deriv_order_ ≠ 0) :
    tbBuf e K2 fmC gm b1 b2 k1 k2 = tbBuf e' K2 fmC gm b1 b2 k1 k2 := by
  unfold tbBuf
  rw [tbViews_stable e e' fmC gm b1 b2 k1 k2 hk hp hd h0]

/-- The `(ss|ss)` accumulation depends only on the engine configuration. -/
theorem tbStack_stable (e e' : TwoBodyEngine)
    (fmC : ℝ → ℕ → ℕ → ℝ) (gm : List (ℝ × ℝ) → ℝ → ℝ → ℕ → ℕ → ℝ)
    (b1 b2 k1 k2 : Shell)
    (hk : e.kind = e'.kind) (hp : e.core_ints_params_ = e'.core_ints_params_)
    (hd : e.deriv_order_ = e'.deriv_order_) :
    tbStack e fmC gm b1 b2 k1 k2 = tbStack e' fmC gm b1 b2 k1 k2 := by
  unfold tbStack
  refine Finset.sum_congr rfl fun p hp' => ?_
  rw [Finset.mem_range] at hp'
  unfold tbPrimdata
  rw [if_pos hp', if_pos hp']
  exact compute_primdata2_Fm_stable e e' fmC gm _ _ b1 b2 k1 k2 _ _ _ _ 0
    hk hp hd (Nat.zero_le _)

set_option maxHeartbeats 1000000 in
/-- `TwoBodyEngine::compute` never changes the configuration fixed at
construction nor the transformed core-integral parameters. -/
theorem twoBodyCompute_preserves_config (e : TwoBodyEngine) (K2 : TBKernel)
    (fmC : ℝ → ℕ → ℕ → ℝ) (gm : List (ℝ × ℝ) → ℝ → ℝ → ℕ → ℕ → ℝ)
    (tf1 : ℕ → ℕ → (ℕ → ℝ) → (ℕ → ℝ)) (tfi : ℕ → ℕ → ℕ → (ℕ → ℝ) → (ℕ → ℝ))
    (tfl : ℕ → ℕ → (ℕ → ℝ) → (ℕ → ℝ)) (s1 s2 s3 s4 : Shell) :
    (e.compute K2 fmC gm tf1 tfi tfl s1 s2 s3 s4).1.kind = e.kind ∧
    (e.compute K2 fmC gm tf1 tfi tfl s1 s2 s3 s4).1.primdata_size =
      e.primdata_size ∧
    (e.compute K2 fmC gm tf1 tfi tfl s1 s2 s3 s4).1.lmax_ = e.lmax_ ∧
    (e.compute K2 fmC gm tf1 tfi tfl s1 s2 s3 s4).1.deriv_order_ =
      e.deriv_order_ ∧
    (e.compute K2 fmC gm tf1 tfi tfl s1 s2 s3 s4).1.core_ints_params_ =
      e.core_ints_params_ := by
  refine ⟨?_, ?_, ?_, ?_, ?_⟩
  all_goals
    simp only [TwoBodyEngine.compute]
    repeat' split
    all_goals rfl

/-- The target block of a successful one-body call agrees pointwise with
the denotational value (the unconditional core of `oneBodyCompute_ok`). -/
theorem obComputeCore_spec (e : OneBodyEngine) (K : OBKernel) (coef : SHCoef)
    (fm : ℝ → ℕ → ℝ) (s1 s2 : Shell) :
    ∀ q < s1.size * s2.size,
      (obComputeCore e K coef fm s1 s2).2 q = obResultSpec e K coef fm s1 s2 q := by
  intro q hq'
  simp only [obComputeCore, obResultSpec]
  exact obTformStage_congr coef s1 s2 _ _ (obCartStage_spec e K fm s1 s2) q hq'

/-- The one-body denotational value reads only the operator type and the
nuclear parameters of the engine. -/
theorem obResultSpec_config (e e' : OneBodyEngine) (K : OBKernel)
    (coef : SHCoef) (fm : ℝ → ℕ → ℝ) (s1 s2 : Shell)
    (ht : e.type_ = e'.type_) (hq : e.q_ = e'.q_) :
    obResultSpec e K coef fm s1 s2 = obResultSpec e' K coef fm s1 s2 := by
  unfold obResultSpec obCartSpec obMapped obBuf obViews obSeedSum obRecord
  simp only [OneBodyEngine.compute_primdata, ht, hq]

/-- On the valid target region the un-permuted result does not depend on
the previous scratch contents: every valid position is covered by a block
write. -/
theorem tbScratchResult_congr (tf1 : ℕ → ℕ → (ℕ → ℝ) → (ℕ → ℝ))
    (tfi : ℕ → ℕ → ℕ → (ℕ → ℝ) → (ℕ → ℝ))
    (tfl : ℕ → ℕ → (ℕ → ℝ) → (ℕ → ℝ)) (sbk sb sk : Bool)
    (B1 B2 T1 T2 s1 s2 s3 s4 : Shell) (buf scr scr' : ℕ → ℝ)
    (hB1 : B1 = if sbk then (if sk then s4 else s3) else (if sb then s2 else s1))
    (hB2 : B2 = if sbk then (if sk then s3 else s4) else (if sb then s1 else s2))
    (hT1 : T1 = if sbk then (if sb then s2 else s1) else (if sk then s4 else s3))
    (hT2 : T2 = if sbk then (if sb then s1 else s2) else (if sk then s3 else s4))
    (p : ℕ) (hp : p < s1.size * s2.size * s3.size * s4.size) :
    tbScratchResult tf1 tfi tfl sbk sb sk B1 B2 T1 T2 s1 s2 s3 s4 buf scr p =
      tbScratchResult tf1 tfi tfl sbk sb sk B1 B2 T1 T2 s1 s2 s3 s4 buf scr' p := by
  obtain ⟨h1, h2, h3, h4, hEq⟩ := flat4_surj hp
  subst hB1 hB2 hT1 hT2
  unfold tbScratchResult
  rw [← hEq]
  cases sbk with
  | false =>
    simp only [Bool.false_eq_true, if_false]
    rw [unpermuteWrites_lookup_nobk sb sk _ _ _ _ _ _ _ _ _ scr
          (apply_ite Shell.size (sb = true) s2 s1)
          (apply_ite Shell.size (sb = true) s1 s2)
          (apply_ite Shell.size (sk = true) s4 s3)
          (apply_ite Shell.size (sk = true) s3 s4) h1 h2 h3 h4,
        unpermuteWrites_lookup_nobk sb sk _ _ _ _ _ _ _ _ _ scr'
          (apply_ite Shell.size (sb = true) s2 s1)
          (apply_ite Shell.size (sb = true) s1 s2)
          (apply_ite Shell.size (sk = true) s4 s3)
          (apply_ite Shell.size (sk = true) s3 s4) h1 h2 h3 h4]
  | true =>
    simp only [if_true]
    rw [unpermuteWrites_lookup_bk sb sk _ _ _ _ _ _ _ _ _ scr
          (apply_ite Shell.size (sk = true) s4 s3)
          (apply_ite Shell.size (sk = true) s3 s4)
          (apply_ite Shell.size (sb = true) s2 s1)
          (apply_ite Shell.size (sb = true) s1 s2) h1 h2 h3 h4,
        unpermuteWrites_lookup_bk sb sk _ _ _ _ _ _ _ _ _ scr'
          (apply_ite Shell.size (sk = true) s4 s3)
          (apply_ite Shell.size (sk = true) s3 s4)
          (apply_ite Shell.size (sb = true) s2 s1)
          (apply_ite Shell.size (sb = true) s1 s2) h1 h2 h3 h4]

/-- The legally accessible part of a one-body result depends only on the
engine configuration (operator type, capacity, angular-momentum bound,
derivative order, nuclear parameters), never on the mutable per-call
storage left by earlier calls. -/
theorem oneBodyCompute_resultView_config (e e' : OneBodyEngine) (K : OBKernel)
    (coef : SHCoef) (fm : ℝ → ℕ → ℝ) (s1 s2 : Shell)
    (h1 : e.type_ = e'.type_) (h2 : e.primdata_size = e'.primdata_size)
    (h3 : e.lmax_ = e'.lmax_) (h4 : e.deriv_order_ = e'.deriv_order_)
    (h5 : e.q_ = e'.q_) :
    resultView (e.compute K coef fm s1 s2).2 (s1.size * s2.size) =
      resultView (e'.compute K coef fm s1 s2).2 (s1.size * s2.size) := by
  rw [oneBodyCompute_snd, oneBodyCompute_snd, h1, h2, h3, h4, h5]
  split_ifs
  all_goals
    first
    | rfl
    | (simp only [resultView, Except.map]
       congr 1
       refine List.map_congr_left fun q hq => ?_
       rw [List.mem_range] at hq
       rw [obComputeCore_spec e K coef fm s1 s2 q hq,
           obComputeCore_spec e' K coef fm s1 s2 q hq,
           obResultSpec_config e e' K coef fm s1 s2 h1 h5])

set_option maxHeartbeats 1600000 in
/-- The legally accessible part of a two-body result depends only on the
engine configuration (kernel kind, capacity, angular-momentum bound,
derivative order, transformed core-integral parameters), never on the
mutable per-call storage left by earlier calls. -/
theorem twoBodyCompute_resultView_config (e e' : TwoBodyEngine) (K2 : TBKernel)
    (fmC : ℝ → ℕ → ℕ → ℝ) (gm : List (ℝ × ℝ) → ℝ → ℝ → ℕ → ℕ → ℝ)
    (tf1 : ℕ → ℕ → (ℕ → ℝ) → (ℕ → ℝ)) (tfi : ℕ → ℕ → ℕ → (ℕ → ℝ) → (ℕ → ℝ))
    (tfl : ℕ → ℕ → (ℕ → ℝ) → (ℕ → ℝ)) (s1 s2 s3 s4 : Shell)
    (h1 : e.kind = e'.kind) (h2 : e.primdata_size = e'.primdata_size)
    (h3 : e.lmax_ = e'.lmax_) (h4 : e.deriv_order_ = e'.deriv_order_)
    (h5 : e.core_ints_params_ = e'.core_ints_params_) :
    resultView (e.compute K2 fmC gm tf1 tfi tfl s1 s2 s3 s4).2
        (s1.size * s2.size * s3.size * s4.size) =
      resultView (e'.compute K2 fmC gm tf1 tfi tfl s1 s2 s3 s4).2
        (s1.size * s2.size * s3.size * s4.size) := by
  simp only [TwoBodyEngine.compute, h3, h4]
  by_cases hdv : e'.deriv_order_ ≠ 0
  · rw [if_pos hdv, if_pos hdv]
  · rw [if_neg hdv, if_neg hdv]
    generalize hB1 : (if decide (s3.l + s4.l < s1.l + s2.l) = true then
        if decide (s3.l < s4.l) = true then s4 else s3
      else if decide (s1.l < s2.l) = true then s2 else s1) = B1
    generalize hB2 : (if decide (s3.l + s4.l < s1.l + s2.l) = true then
        if decide (s3.l < s4.l) = true then s3 else s4
      else if decide (s1.l < s2.l) = true then s1 else s2) = B2
    generalize hT1 : (if decide (s3.l + s4.l < s1.l + s2.l) = true then
        if decide (s1.l < s2.l) = true then s2 else s1
      else if decide (s3.l < s4.l) = true then s4 else s3) = T1
    generalize hT2 : (if decide (s3.l + s4.l < s1.l + s2.l) = true then
        if decide (s1.l < s2.l) = true then s1 else s2
      else if decide (s3.l < s4.l) = true then s3 else s4) = T2
    by_cases hl : ((max (max B1.l B2.l) (max T1.l T2.l) : ℕ) : ℤ) ≤ e'.lmax_
    · rw [if_neg (not_not_intro hl), if_neg (not_not_intro hl)]
      by_cases hlz : max (max B1.l B2.l) (max T1.l T2.l) = 0
      · rw [if_pos hlz, if_pos hlz,
          tbStack_stable e e' fmC gm B1 B2 T1 T2 h1 h5 h4]
      · rw [if_neg hlz, if_neg hlz]
        have h0 : B1.l + T1.l + B2.l + T2.l + e.deriv_order_ ≠ 0 := by omega
        have hbuf : tbBuf e K2 fmC gm B1 B2 T1 T2 =
            tbBuf e' K2 fmC gm B1 B2 T1 T2 :=
          tbBuf_stable e e' K2 fmC gm B1 B2 T1 T2 h1 h5 h4 h0
        by_cases hus : (decide (s3.l + s4.l < s1.l + s2.l) ||
            decide (s1.l < s2.l) || decide (s3.l < s4.l) ||
            (s1.pure || s2.pure || s3.pure || s4.pure)) = true
        · rw [if_pos hus, if_pos hus, hbuf]
          simp only [resultView, Except.map]
          congr 1
          refine List.map_congr_left fun p hp' => ?_
          rw [List.mem_range] at hp'
          exact tbScratchResult_congr tf1 tfi tfl _ _ _ B1 B2 T1 T2 s1 s2 s3 s4
            _ e.scratch e'.scratch hB1.symm hB2.symm hT1.symm hT2.symm p hp'
        · rw [if_neg hus, if_neg hus, hbuf]
    · rw [if_pos (fun h => hl (not_not.mp (fun h' => h' h))),
        if_pos (fun h => hl (not_not.mp (fun h' => h' h)))]

/-- A constant-zero two-body recurrence kernel. -/
def tbKernelZero : TBKernel := fun _ _ _ _ _ _ => 0

/-- A constant-zero Boys evaluator for the two-body dispatcher. -/
def fmCZero : ℝ → ℕ → ℕ → ℝ := fun _ _ _ => 0

/-- A constant-zero geminal core evaluator. -/
def gmZero : List (ℝ × ℝ) → ℝ → ℝ → ℕ → ℕ → ℝ := fun _ _ _ _ _ => 0

/-- Identity stand-ins for the external solid-harmonics transforms. -/
def tfFirstId : ℕ → ℕ → (ℕ → ℝ) → (ℕ → ℝ) := fun _ _ g => g

/-- Identity stand-in for `transform_inner`. -/
def tfInnerId : ℕ → ℕ → ℕ → (ℕ → ℝ) → (ℕ → ℝ) := fun _ _ _ g => g

/-- Identity stand-in for `transform_last`. -/
def tfLastId : ℕ → ℕ → (ℕ → ℝ) → (ℕ → ℝ) := fun _ _ g => g

/-- C9: no state leaks between `compute` calls, one- or two-body: two
engines sharing the construction-time configuration (and, for one-body,
the nuclear parameters) but with arbitrary mutable storage — such as the
storage left behind by any earlier sequence of calls — return results
agreeing on every legally accessible entry, and every call preserves the
configuration, because each call re-zeros its accumulation target and
fully re-populates every record and every scratch position it reads. -/
theorem C9_no_state_leakage
    (e e' : OneBodyEngine) (K : OBKernel) (coef : SHCoef) (fm : ℝ → ℕ → ℝ)
    (s1 s2 : Shell)
    (h1 : e.type_ = e'.type_) (h2 : e.primdata_size = e'.primdata_size)
    (h3 : e.lmax_ = e'.lmax_) (h4 : e.deriv_order_ = e'.deriv_order_)
    (h5 : e.q_ = e'.q_)
    (f f' : TwoBodyEngine) (K2 : TBKernel)
    (fmC : ℝ → ℕ → ℕ → ℝ) (gm : List (ℝ × ℝ) → ℝ → ℝ → ℕ → ℕ → ℝ)
    (tf1 : ℕ → ℕ → (ℕ → ℝ) → (ℕ → ℝ)) (tfi : ℕ → ℕ → ℕ → (ℕ → ℝ) → (ℕ → ℝ))
    (tfl : ℕ → ℕ → (ℕ → ℝ) → (ℕ → ℝ)) (t1 t2 t3 t4 : Shell)
    (g1 : f.kind = f'.kind) (g2 : f.primdata_size = f'.primdata_size)
    (g3 : f.lmax_ = f'.lmax_) (g4 : f.deriv_order_ = f'.deriv_order_)
    (g5 : f.core_ints_params_ = f'.core_ints_params_) :
    (resultView (e.compute K coef fm s1 s2).2 (s1.size * s2.size) =
       resultView (e'.compute K coef fm s1 s2).2 (s1.size * s2.size) ∧
     ((e.compute K coef fm s1 s2).1.type_ = e.type_ ∧
      (e.compute K coef fm s1 s2).1.primdata_size = e.primdata_size ∧
      (e.compute K coef fm s1 s2).1.lmax_ = e.lmax_ ∧
      (e.compute K coef fm s1 s2).1.deriv_order_ = e.deriv_order_ ∧
      (e.compute K coef fm s1 s2).1.q_ = e.q_)) ∧
    (resultView (f.compute K2 fmC gm tf1 tfi tfl t1 t2 t3 t4).2
         (t1.size * t2.size * t3.size * t4.size) =
       resultView (f'.compute K2 fmC gm tf1 tfi tfl t1 t2 t3 t4).2
         (t1.size * t2.size * t3.size * t4.size) ∧
     ((f.compute K2 fmC gm tf1 tfi tfl t1 t2 t3 t4).1.kind = f.kind ∧
      (f.compute K2 fmC gm tf1 tfi tfl t1 t2 t3 t4).1.primdata_size =
        f.primdata_size ∧
      (f.compute K2 fmC gm tf1 tfi tfl t1 t2 t3 t4).1.lmax_ = f.lmax_ ∧
      (f.compute K2 fmC gm tf1 tfi tfl t1 t2 t3 t4).1.deriv_order_ =
        f.deriv_order_ ∧
      (f.compute K2 fmC gm tf1 tfi tfl t1 t2 t3 t4).1.core_ints_params_ =
        f.core_ints_params_)) :=
  ⟨⟨oneBodyCompute_resultView_config e e' K coef fm s1 s2 h1 h2 h3 h4 h5,
    oneBodyCompute_preserves_config e K coef fm s1 s2⟩,
   ⟨twoBodyCompute_resultView_config f f' K2 fmC gm tf1 tfi tfl t1 t2 t3 t4
      g1 g2 g3 g4 g5,
    twoBodyCompute_preserves_config f K2 fmC gm tf1 tfi tfl t1 t2 t3 t4⟩⟩

/-- Witness for `C9_no_state_leakage` at concrete engines and shells (the
configuration-equality hypotheses hold by `rfl`). -/
theorem C9_witness :
    resultView ((mkOneBodyEngine OBType.overlap 1 0 0).compute obKernelZero
        shCoefZero fmZero unitSShell unitSShell).2
        (unitSShell.size * unitSShell.size) =
      resultView ((mkOneBodyEngine OBType.overlap 1 0 0).compute obKernelZero
        shCoefZero fmZero unitSShell unitSShell).2
        (unitSShell.size * unitSShell.size) :=
  (C9_no_state_leakage (mkOneBodyEngine OBType.overlap 1 0 0)
    (mkOneBodyEngine OBType.overlap 1 0 0) obKernelZero shCoefZero fmZero
    unitSShell unitSShell rfl rfl rfl rfl rfl
    (mkTwoBodyEngine TBKernelKind.Coulomb 1 0 0 [])
    (mkTwoBodyEngine TBKernelKind.Coulomb 1 0 0 []) tbKernelZero fmCZero
    gmZero tfFirstId tfInnerId tfLastId unitSShell unitSShell unitSShell
    unitSShell rfl rfl rfl rfl rfl).1.1

/-- The reference caller-to-canonical index mapping of the
`FORCE_SOLID_TFORM_CHECK` block of `TwoBodyEngine::compute`: the value
the caller reads at `(i1,i2,i3,i4)` lives at `(j1,j2,j3,j4)` of the
canonical kernel output, where the `j`s undo the three swap decisions. -/
def tbRefIndex (swap_braket swap_bra swap_ket : Bool) (nb2 nk1 nk2 : ℕ)
    (i1 i2 i3 i4 : ℕ) : ℕ :=
  let j1 := if swap_braket then (if swap_ket then i4 else i3)
            else (if swap_bra then i2 else i1)
  let j2 := if swap_braket then (if swap_ket then i3 else i4)
            else (if swap_bra then i1 else i2)
  let j3 := if swap_braket then (if swap_bra then i2 else i1)
            else (if swap_ket then i4 else i3)
  let j4 := if swap_braket then (if swap_bra then i1 else i2)
            else (if swap_ket then i3 else i4)
  ((j1 * nb2 + j2) * nk1 + j3) * nk2 + j4

/-- Canonicalisation permutes the four shells, so the maximal angular
momentum of the canonical quartet equals the caller's. -/
theorem tbCanonical_max (s1 s2 s3 s4 : Shell) :
    max (max (if decide (s3.l + s4.l < s1.l + s2.l) = true then
          if decide (s3.l < s4.l) = true then s4 else s3
        else if decide (s1.l < s2.l) = true then s2 else s1).l
      (if decide (s3.l + s4.l < s1.l + s2.l) = true then
          if decide (s3.l < s4.l) = true then s3 else s4
        else if decide (s1.l < s2.l) = true then s1 else s2).l)
      (max (if decide (s3.l + s4.l < s1.l + s2.l) = true then
          if decide (s1.l < s2.l) = true then s2 else s1
        else if decide (s3.l < s4.l) = true then s4 else s3).l
      (if decide (s3.l + s4.l < s1.l + s2.l) = true then
          if decide (s1.l < s2.l) = true then s1 else s2
        else if decide (s3.l < s4.l) = true then s3 else s4).l) =
    max (max s1.l s2.l) (max s3.l s4.l) := by
  rcases Bool.eq_false_or_eq_true (decide (s3.l + s4.l < s1.l + s2.l)) with
    h | h <;>
    rcases Bool.eq_false_or_eq_true (decide (s1.l < s2.l)) with h' | h' <;>
      rcases Bool.eq_false_or_eq_true (decide (s3.l < s4.l)) with h'' | h'' <;>
        simp only [h, h', h'', Bool.false_eq_true, if_false, if_true] <;>
          omega

set_option maxHeartbeats 1600000 in
/-- C6: a two-body call over Cartesian shells (the engine does not support
solid-harmonics Gaussians) with nonzero maximal angular momentum
succeeds, and the returned buffer, read row-major with the caller's
dimensions `(s1 x s2 x s3 x s4)`, recovers the canonical kernel output
through the reference mapping that exactly inverts the three
canonicalisation decisions — for every combination of the three binary
swap decisions. -/
theorem C6_unpermute_inverts_swaps (e : TwoBodyEngine) (K2 : TBKernel)
    (fmC : ℝ → ℕ → ℕ → ℝ) (gm : List (ℝ × ℝ) → ℝ → ℝ → ℕ → ℕ → ℝ)
    (tf1 : ℕ → ℕ → (ℕ → ℝ) → (ℕ → ℝ)) (tfi : ℕ → ℕ → ℕ → (ℕ → ℝ) → (ℕ → ℝ))
    (tfl : ℕ → ℕ → (ℕ → ℝ) → (ℕ → ℝ)) (s1 s2 s3 s4 : Shell)
    (hd : e.deriv_order_ = 0)
    (hp1 : s1.pure = false) (hp2 : s2.pure = false)
    (hp3 : s3.pure = false) (hp4 : s4.pure = false)
    (hl : ((max (max s1.l s2.l) (max s3.l s4.l) : ℕ) : ℤ) ≤ e.lmax_)
    (hlz : max (max s1.l s2.l) (max s3.l s4.l) ≠ 0) :
    ∃ r, (e.compute K2 fmC gm tf1 tfi tfl s1 s2 s3 s4).2 = Except.ok r ∧
      ∀ i1 i2 i3 i4, i1 < s1.cartesian_size → i2 < s2.cartesian_size →
        i3 < s3.cartesian_size → i4 < s4.cartesian_size →
        r (((i1 * s2.cartesian_size + i2) * s3.cartesian_size + i3) *
            s4.cartesian_size + i4) =
          tbBuf e K2 fmC gm
            (if decide (s3.l + s4.l < s1.l + s2.l) = true then
                if decide (s3.l < s4.l) = true then s4 else s3
              else if decide (s1.l < s2.l) = true then s2 else s1)
            (if decide (s3.l + s4.l < s1.l + s2.l) = true then
                if decide (s3.l < s4.l) = true then s3 else s4
              else if decide (s1.l < s2.l) = true then s1 else s2)
            (if decide (s3.l + s4.l < s1.l + s2.l) = true then
                if decide (s1.l < s2.l) = true then s2 else s1
              else if decide (s3.l < s4.l) = true then s4 else s3)
            (if decide (s3.l + s4.l < s1.l + s2.l) = true then
                if decide (s1.l < s2.l) = true then s1 else s2
              else if decide (s3.l < s4.l) = true then s3 else s4)
            (tbRefIndex (decide (s3.l + s4.l < s1.l + s2.l))
              (decide (s1.l < s2.l)) (decide (s3.l < s4.l))
              (if decide (s3.l + s4.l < s1.l + s2.l) = true then
                  if decide (s3.l < s4.l) = true then s3 else s4
                else if decide (s1.l < s2.l) = true then s1 else s2).cartesian_size
              (if decide (s3.l + s4.l < s1.l + s2.l) = true then
                  if decide (s1.l < s2.l) = true then s2 else s1
                else if decide (s3.l < s4.l) = true then s4 else s3).cartesian_size
              (if decide (s3.l + s4.l < s1.l + s2.l) = true then
                  if decide (s1.l < s2.l) = true then s1 else s2
                else if decide (s3.l < s4.l) = true then s3 else s4).cartesian_size
              i1 i2 i3 i4) := by
  simp only [TwoBodyEngine.compute, hd]
  rw [if_neg (fun h : (0 : ℕ) ≠ 0 => h rfl)]
  generalize hB1 : (if decide (s3.l + s4.l < s1.l + s2.l) = true then
      if decide (s3.l < s4.l) = true then s4 else s3
    else if decide (s1.l < s2.l) = true then s2 else s1) = B1
  generalize hB2 : (if decide (s3.l + s4.l < s1.l + s2.l) = true then
      if decide (s3.l < s4.l) = true then s3 else s4
    else if decide (s1.l < s2.l) = true then s1 else s2) = B2
  generalize hT1 : (if decide (s3.l + s4.l < s1.l + s2.l) = true then
      if decide (s1.l < s2.l) = true then s2 else s1
    else if decide (s3.l < s4.l) = true then s4 else s3) = T1
  generalize hT2 : (if decide (s3.l + s4.l < s1.l + s2.l) = true then
      if decide (s1.l < s2.l) = true then s1 else s2
    else if decide (s3.l < s4.l) = true then s3 else s4) = T2
  have hmax : max (max B1.l B2.l) (max T1.l T2.l) =
      max (max s1.l s2.l) (max s3.l s4.l) := by
    rw [← hB1, ← hB2, ← hT1, ← hT2]
    exact tbCanonical_max s1 s2 s3 s4
  have hl' : ((max (max B1.l B2.l) (max T1.l T2.l) : ℕ) : ℤ) ≤ e.lmax_ := by
    rw [hmax]
    exact hl
  have hlz' : ¬ max (max B1.l B2.l) (max T1.l T2.l) = 0 := by
    rw [hmax]
    exact hlz
  rw [if_neg (not_not_intro hl'), if_neg hlz']
  have hB1p : B1.pure = false := by
    rw [← hB1]
    simp [apply_ite Shell.pure, hp1, hp2, hp3, hp4]
  have hB2p : B2.pure = false := by
    rw [← hB2]
    simp [apply_ite Shell.pure, hp1, hp2, hp3, hp4]
  have hT1p : T1.pure = false := by
    rw [← hT1]
    simp [apply_ite Shell.pure, hp1, hp2, hp3, hp4]
  have hT2p : T2.pure = false := by
    rw [← hT2]
    simp [apply_ite Shell.pure, hp1, hp2, hp3, hp4]
  simp only [hp1, hp2, hp3, hp4, Bool.or_self, Bool.or_false]
  by_cases hsw : (decide (s3.l + s4.l < s1.l + s2.l) || decide (s1.l < s2.l)
      || decide (s3.l < s4.l)) = true
  · rw [if_pos hsw]
    refine ⟨_, rfl, ?_⟩
    intro i1 i2 i3 i4 hi1 hi2 hi3 hi4
    simp only [tbScratchResult, hB1p, hB2p, hT1p, hT2p, Bool.false_eq_true,
      if_false]
    rw [size_of_not_pure s1 hp1, size_of_not_pure s2 hp2,
      size_of_not_pure s3 hp3, size_of_not_pure s4 hp4,
      size_of_not_pure B1 hB1p, size_of_not_pure B2 hB2p,
      size_of_not_pure T1 hT1p, size_of_not_pure T2 hT2p]
    cases hsbk : decide (s3.l + s4.l < s1.l + s2.l) with
    | false =>
      rw [hsbk] at hB1 hB2 hT1 hT2
      simp only [Bool.false_eq_true, if_false] at hB1 hB2 hT1 hT2
      rw [unpermuteWrites_lookup_nobk (decide (s1.l < s2.l))
          (decide (s3.l < s4.l)) B1.cartesian_size B2.cartesian_size
          T1.cartesian_size T2.cartesian_size s1.cartesian_size
          s2.cartesian_size s3.cartesian_size s4.cartesian_size _ e.scratch
          (by rw [← hB1]; exact apply_ite Shell.cartesian_size _ s2 s1)
          (by rw [← hB2]; exact apply_ite Shell.cartesian_size _ s1 s2)
          (by rw [← hT1]; exact apply_ite Shell.cartesian_size _ s4 s3)
          (by rw [← hT2]; exact apply_ite Shell.cartesian_size _ s3 s4)
          hi1 hi2 hi3 hi4]
      congr 1
      simp only [tbRefIndex, Bool.false_eq_true, if_false]
      ring
    | true =>
      rw [hsbk] at hB1 hB2 hT1 hT2
      simp only [eq_self_iff_true, if_true] at hB1 hB2 hT1 hT2
      rw [unpermuteWrites_lookup_bk (decide (s1.l < s2.l))
          (decide (s3.l < s4.l)) B1.cartesian_size B2.cartesian_size
          T1.cartesian_size T2.cartesian_size s1.cartesian_size
          s2.cartesian_size s3.cartesian_size s4.cartesian_size _ e.scratch
          (by rw [← hB1]; exact apply_ite Shell.cartesian_size _ s4 s3)
          (by rw [← hB2]; exact apply_ite Shell.cartesian_size _ s3 s4)
          (by rw [← hT1]; exact apply_ite Shell.cartesian_size _ s2 s1)
          (by rw [← hT2]; exact apply_ite Shell.cartesian_size _ s1 s2)
          hi1 hi2 hi3 hi4]
      congr 1
      simp only [tbRefIndex, eq_self_iff_true, if_true]
      ring
  · rw [if_neg hsw]
    refine ⟨_, rfl, ?_⟩
    intro i1 i2 i3 i4 hi1 hi2 hi3 hi4
    rw [Bool.not_eq_true] at hsw
    obtain ⟨hab, hsk⟩ := Bool.or_eq_false_iff.mp hsw
    obtain ⟨hsbk, hsb⟩ := Bool.or_eq_false_iff.mp hab
    rw [hsbk, hsb, hsk] at hB1 hB2 hT1 hT2 ⊢
    simp only [Bool.false_eq_true, if_false] at hB1 hB2 hT1 hT2
    subst hB1 hB2 hT1 hT2
    simp only [tbRefIndex, Bool.false_eq_true, if_false]

/-- A single-primitive Cartesian p shell with unit exponent and unit
contraction coefficient at the origin. -/
def unitPShell : Shell := ⟨fun _ => 0, 1, false, [1], [1]⟩

/-- Witness for `C6_unpermute_inverts_swaps` at a concrete admissible
input (a `(ps|ss)` quartet on a Coulomb engine with `lmax_ = 1`). -/
theorem C6_witness :
    ∃ r, ((mkTwoBodyEngine TBKernelKind.Coulomb 1 1 0 []).compute tbKernelZero
        fmCZero gmZero tfFirstId tfInnerId tfLastId unitPShell unitSShell
        unitSShell unitSShell).2 = Except.ok r :=
  (C6_unpermute_inverts_swaps (mkTwoBodyEngine TBKernelKind.Coulomb 1 1 0 [])
    tbKernelZero fmCZero gmZero tfFirstId tfInnerId tfLastId unitPShell
    unitSShell unitSShell unitSShell rfl rfl rfl rfl rfl (by decide)
    (by decide)).elim fun r hr => ⟨r, hr.1⟩

/-- Triangular-number step. -/
theorem tri_succ (b : ℕ) : b * (b + 1) / 2 + (b + 1) = (b + 1) * (b + 2) / 2 := by
  obtain ⟨m, hm⟩ := (Nat.even_mul_succ_self b).two_dvd
  have e1 : (b + 1) * (b + 2) = 2 * (m + (b + 1)) := by
    rw [show (b + 1) * (b + 2) = b * (b + 1) + 2 * (b + 1) from by ring, hm]
    ring
  rw [hm, e1, Nat.mul_div_cancel_left _ (by norm_num : 0 < 2),
    Nat.mul_div_cancel_left _ (by norm_num : 0 < 2)]

/-- Length of a triangular double loop (`for b < n, for k ≤ b`). -/
theorem range_bind_tri_length {α : Type} (g : ℕ → ℕ → α) (n : ℕ) :
    ((List.range n).flatMap fun b => (List.range (b + 1)).map fun k =>
        g b k).length = n * (n + 1) / 2 := by
  induction n with
  | zero => rfl
  | succ n ih =>
    rw [List.range_succ, List.flatMap_append, List.length_append, ih,
      List.flatMap_cons, List.flatMap_nil, List.append_nil, List.length_map,
      List.length_range]
    exact tri_succ n

/-- The element of a triangular double loop at flat index
`b * (b + 1) / 2 + k`. -/
theorem range_bind_tri_getD {α : Type} (g : ℕ → ℕ → α) (d : α) (n : ℕ) :
    ∀ b k, k ≤ b → b < n →
      ((List.range n).flatMap fun b' => (List.range (b' + 1)).map fun k' =>
          g b' k').getD (b * (b + 1) / 2 + k) d = g b k := by
  induction n with
  | zero => omega
  | succ n ih =>
    intro b k hk hb
    rw [List.range_succ, List.flatMap_append, List.flatMap_cons, List.flatMap_nil,
      List.append_nil]
    rcases Nat.lt_or_ge b n with h | h
    · rw [List.getD_append]
      · exact ih b k hk h
      · rw [range_bind_tri_length]
        calc b * (b + 1) / 2 + k < b * (b + 1) / 2 + (b + 1) := by omega
          _ = (b + 1) * (b + 2) / 2 := tri_succ b
          _ ≤ n * (n + 1) / 2 :=
            Nat.div_le_div_right (Nat.mul_le_mul (by omega) (by omega))
    · have hbn : b = n := by omega
      subst hbn
      rw [List.getD_append_right]
      · rw [range_bind_tri_length, Nat.add_sub_cancel_left,
          List.getD_eq_getElem?_getD, List.getElem?_map,
          List.getElem?_range (by omega : k < b + 1)]
        rfl
      · rw [range_bind_tri_length]
        omega

/-- C7: for a `DelcGTG_square` engine the transformed parameter set is
built once, at construction/parameter-set time (and never rebuilt by
`compute`), and for an input geminal of length `n` it holds exactly
`n*(n+1)/2` derived terms, one per unordered pair: the term for the pair
at positions `(b, k)`, `k ≤ b`, sits at flat index `b*(b+1)/2 + k` and
carries exponent `a_b + a_k` and coefficient
`4*a_b*a_k*(c_b*c_k*(1 if b = k else 2))`. -/
theorem C7_delcgtg_param_transform (oparams : List (ℝ × ℝ)) :
    (init_core_ints_params TBKernelKind.DelcGTG_square oparams).length =
      oparams.length * (oparams.length + 1) / 2 ∧
    (∀ b k, k ≤ b → b < oparams.length →
      (init_core_ints_params TBKernelKind.DelcGTG_square oparams).getD
          (b * (b + 1) / 2 + k) (0, 0) =
        ((oparams.getD b (0, 0)).1 + (oparams.getD k (0, 0)).1,
         4 * (oparams.getD b (0, 0)).1 * (oparams.getD k (0, 0)).1 *
           ((oparams.getD b (0, 0)).2 * (oparams.getD k (0, 0)).2 *
             (if b = k then 1 else 2)))) ∧
    (∀ (kind : TBKernelKind) (max_nprim : ℕ) (max_l : ℤ) (deriv_order : ℕ),
      (mkTwoBodyEngine kind max_nprim max_l deriv_order
          oparams).core_ints_params_ = init_core_ints_params kind oparams) ∧
    (∀ (f : TwoBodyEngine) (K2 : TBKernel) (fmC : ℝ → ℕ → ℕ → ℝ)
        (gm : List (ℝ × ℝ) → ℝ → ℝ → ℕ → ℕ → ℝ)
        (tf1 : ℕ → ℕ → (ℕ → ℝ) → (ℕ → ℝ))
        (tfi : ℕ → ℕ → ℕ → (ℕ → ℝ) → (ℕ → ℝ))
        (tfl : ℕ → ℕ → (ℕ → ℝ) → (ℕ → ℝ)) (t1 t2 t3 t4 : Shell),
      (f.compute K2 fmC gm tf1 tfi tfl t1 t2 t3 t4).1.core_ints_params_ =
        f.core_ints_params_) :=
  ⟨range_bind_tri_length _ oparams.length,
   fun b k hk hb => range_bind_tri_getD _ (0, 0) oparams.length b k hk hb,
   fun _ _ _ _ => rfl,
   fun f K2 fmC gm tf1 tfi tfl t1 t2 t3 t4 =>
     (twoBodyCompute_preserves_config f K2 fmC gm tf1 tfi tfl
       t1 t2 t3 t4).2.2.2.2⟩

/-- Witness for `C7_delcgtg_param_transform` on the concrete geminal
`[(1,2),(3,4)]` at the pair `(b,k) = (1,0)`: exponent `3+1 = 4`,
coefficient `4*3*1*(4*2*2) = 192`. -/
theorem C7_witness :
    (init_core_ints_params TBKernelKind.DelcGTG_square
        [((1 : ℝ), (2 : ℝ)), (3, 4)]).getD 1 (0, 0) = (4, 192) := by
  have h := (C7_delcgtg_param_transform [((1 : ℝ), (2 : ℝ)), (3, 4)]).2.1 1 0
    (by norm_num) (by norm_num)
  norm_num [List.getD] at h ⊢
  exact h

/-- A two-primitive s shell (unit exponents and coefficients). -/
def twoPrimSShell : Shell := ⟨fun _ => 0, 0, false, [1, 1], [1, 1]⟩

/-- A three-primitive s shell (unit exponents and coefficients). -/
def threePrimSShell : Shell := ⟨fun _ => 0, 0, false, [1, 1, 1], [1, 1, 1]⟩

/-- C2 fails on the two-body engine: the one-body `compute` enforces the
record-array capacity (succeeding at exactly the configured capacity and
assert-failing above it), but the two-body `compute` performs no capacity
check at all — the source holds only the comment
`// assert # of primitive pairs` — and accepts a call whose primitive
quadruple count (16) exceeds the capacity fixed at construction (1). -/
theorem C2_capacity_divergence :
    (∃ r, ((mkOneBodyEngine OBType.overlap 2 0 0).compute obKernelZero
        shCoefZero fmZero twoPrimSShell twoPrimSShell).2 = Except.ok r) ∧
    ((mkOneBodyEngine OBType.overlap 2 0 0).compute obKernelZero shCoefZero
        fmZero threePrimSShell twoPrimSShell).2 =
      Except.error (OBError.assertFail "nprimpairs <= primdata_.size()") ∧
    twoPrimSShell.nprim * twoPrimSShell.nprim * twoPrimSShell.nprim *
        twoPrimSShell.nprim >
      (mkTwoBodyEngine TBKernelKind.Coulomb 1 0 0 []).primdata_size ∧
    (∃ r, ((mkTwoBodyEngine TBKernelKind.Coulomb 1 0 0 []).compute
        tbKernelZero fmCZero gmZero tfFirstId tfInnerId tfLastId
        twoPrimSShell twoPrimSShell twoPrimSShell twoPrimSShell).2 =
      Except.ok r) := by
  exact ⟨⟨_, rfl⟩, rfl, by decide, ⟨_, rfl⟩⟩
